import Mathlib

/-!
Shallow embedding of the dmlog shared-memory logging channel
(src/src/dmlog.c, src/include/dmlog.h, src/tools/monitor/monitor.c).

Machine integers (`dmlog_index_t` = uint32_t, flag words) are modelled as
`Nat`; all arithmetic performed by the embedded functions is guarded by
comparisons exactly as in the C source, so no 2^32 wraparound is reachable
in the modelled operations.  Byte ring buffers are modelled as a `List Nat`
of length `buffer_size` together with the `head_offset` / `tail_offset`
indices of the control block.  A nullable C pointer is an `Option`.
The fixed-size C char arrays `write_buffer` / `read_buffer` /
`input_read_buffer` (500 bytes, used as NUL-terminated accumulators of
`write_entry_offset` resp. record bytes followed by zeros) are modelled by
the list of bytes before the terminator; `write_entry_offset` corresponds
to `write_buffer.length`.  The `file_path` / `file_path_pc` arrays are
modelled by the byte list of the stored path (empty list = zeroed array).
-/

/-! ## Constants from src/include/dmlog.h -/

def DMLOG_MAGIC_NUMBER : Nat := 0x444D4C4F

def DMOD_LOG_MAX_ENTRY_SIZE : Nat := 500

def DMLOG_MAX_FILE_PATH : Nat := 256

def DMLOG_DEFAULT_CHUNK_SIZE : Nat := 512

def DMLOG_MAX_FILE_SIZE : Nat := 0xFFFFFFFF

def DMLOG_FLAG_CLEAR_BUFFER : Nat := 0x00000001

def DMLOG_FLAG_BUSY : Nat := 0x00000002

def DMLOG_FLAG_INPUT_AVAILABLE : Nat := 0x00000004

def DMLOG_FLAG_INPUT_REQUESTED : Nat := 0x00000008

def DMLOG_FLAG_INPUT_ECHO_OFF : Nat := 0x00000010

def DMLOG_FLAG_INPUT_LINE_MODE : Nat := 0x00000020

def DMLOG_FLAG_FILE_SEND : Nat := 0x00000040

def DMLOG_FLAG_FILE_RECV : Nat := 0x00000080

def DMLOG_INPUT_REQUEST_MASK : Nat := DMLOG_FLAG_INPUT_ECHO_OFF ||| DMLOG_FLAG_INPUT_LINE_MODE

/-- Width mask of the uint32_t `flags` field; `flags &= ~m` in C is
`flags &&& (UINT32_MASK ^^^ m)` here. -/
def UINT32_MASK : Nat := 0xFFFFFFFF

/-- Default of the compile-time option DMLOG_INPUT_BUFFER_SIZE (dmlog.c line 202). -/
def DMLOG_INPUT_BUFFER_SIZE : Nat := 512

/-- sizeof(dmlog_ring_t): the packed control block of dmlog.h
(11 uint32 fields + 3 uint64 fields + two 256-byte path arrays). -/
def sizeof_dmlog_ring_t : Nat := 11 * 4 + 3 * 8 + 2 * DMLOG_MAX_FILE_PATH

/-- DMLOG_VERSION_STRING default ("== dmlog ver. unknown ==\n", dmlog.c line 7),
as its byte sequence. -/
def DMLOG_VERSION_STRING : List Nat := "== dmlog ver. unknown ==\n".toList.map Char.toNat

/-! ## One byte ring (a head/tail index pair of the control block plus its bytes).

The output ring uses `head_offset` / `tail_offset` / `buffer_size` / the bytes at
`ctx->buffer`; the input ring uses `input_head_offset` / `input_tail_offset` /
`input_buffer_size` / the bytes at `ctx->ring.input_buffer`.  The C routines for
the two rings (`get_free_space` vs `get_input_free_space`,
`read_byte_from_tail` vs `read_byte_from_input_tail`,
`write_byte_to_tail` vs `write_byte_to_input_head`) are byte-for-byte the same
algorithm over the respective field set, so they are embedded once over this
structure. -/

structure dmlog_ring where
  buffer_size : Nat
  head_offset : Nat
  tail_offset : Nat
  data : List Nat
deriving DecidableEq

/-- dmlog.c `get_free_space` (lines 82-94) and `get_input_free_space` (lines 621-633). -/
def get_free_space (r : dmlog_ring) : Nat :=
  let free_space :=
    if r.head_offset ≥ r.tail_offset then
      r.buffer_size - (r.head_offset - r.tail_offset)
    else
      r.tail_offset - r.head_offset
  if free_space > 0 then free_space - 1 else 0

/-- dmlog.c `read_byte_from_tail` (lines 104-116) and `read_byte_from_input_tail`
(lines 642-655).  Returns (empty flag, byte read, updated ring); the byte
component is meaningful only when the empty flag is false (a NULL `out_byte`
just ignores it). -/
def read_byte_from_tail (r : dmlog_ring) : Bool × Nat × dmlog_ring :=
  if r.tail_offset = r.head_offset then
    (true, 0, r)
  else
    (false, r.data.getD r.tail_offset 0,
      { r with tail_offset := (r.tail_offset + 1) % r.buffer_size })

/-- dmlog.c `write_byte_to_tail` (lines 125-136) and `write_byte_to_input_head`
(lines 664-676). -/
def write_byte_to_tail (r : dmlog_ring) (byte : Nat) : Bool × dmlog_ring :=
  let next_head := (r.head_offset + 1) % r.buffer_size
  if next_head = r.tail_offset then
    (false, r)
  else
    (true, { r with data := r.data.set r.head_offset byte, head_offset := next_head })

/-- monitor.c `get_left_data_in_buffer` (lines 55-65): the number of used bytes
of a ring, from its head, tail and size. -/
def get_left_data_in_buffer (head_offset tail_offset buffer_size : Nat) : Nat :=
  if head_offset ≥ tail_offset then
    head_offset - tail_offset
  else
    buffer_size - (tail_offset - head_offset)

/-- Used-byte count of a ring (observer; `get_left_data_in_buffer` on its fields). -/
def used_bytes (r : dmlog_ring) : Nat :=
  get_left_data_in_buffer r.head_offset r.tail_offset r.buffer_size

/-- Observer: the bytes currently stored in a ring, oldest (tail) first. -/
def ringContents (r : dmlog_ring) : List Nat :=
  (List.range (used_bytes r)).map (fun i => r.data.getD ((r.tail_offset + i) % r.buffer_size) 0)

/-! ## The context (struct dmlog_ctx, dmlog.c lines 10-21, plus the shared
control block fields of dmlog_ring_t that the embedded operations touch). -/

structure dmlog_ctx where
  magic : Nat
  flags : Nat
  ring : dmlog_ring
  input : dmlog_ring
  write_buffer : List Nat
  read_buffer : List Nat
  read_entry_offset : Nat
  input_read_buffer : List Nat
  input_read_entry_offset : Nat
  lock_recursion : Nat
  file_chunk_buffer : Nat
  file_chunk_size : Nat
  file_chunk_number : Nat
  file_total_size : Nat
  file_path : List Nat
  file_path_pc : List Nat
deriving DecidableEq

/-- dmlog.c `context_lock` (lines 31-40).  The bounded busy-wait is pure timing
and leaves no trace in the sequential state. -/
def context_lock (ctx : dmlog_ctx) : dmlog_ctx :=
  { ctx with flags := ctx.flags ||| DMLOG_FLAG_BUSY,
             lock_recursion := ctx.lock_recursion + 1 }

/-- dmlog.c `context_unlock` (lines 47-57). -/
def context_unlock (ctx : dmlog_ctx) : dmlog_ctx :=
  let ctx :=
    if ctx.lock_recursion > 0 then
      { ctx with lock_recursion := ctx.lock_recursion - 1 }
    else ctx
  if ctx.lock_recursion = 0 then
    { ctx with flags := ctx.flags &&& (UINT32_MASK ^^^ DMLOG_FLAG_BUSY) }
  else ctx

/-- dmlog.c `dmlog_is_valid` (lines 263-269). -/
def dmlog_is_valid (octx : Option dmlog_ctx) : Bool :=
  match octx with
  | none => false
  | some ctx => ctx.magic == DMLOG_MAGIC_NUMBER

/-- Body of dmlog.c `dmlog_clear` (lines 585-613) on a valid context. -/
def dmlog_clear_body (ctx : dmlog_ctx) : dmlog_ctx :=
  let ctx := context_lock ctx
  let ctx :=
    { ctx with
      ring := { ctx.ring with head_offset := 0, tail_offset := 0,
                              data := List.replicate ctx.ring.buffer_size 0 },
      input := { ctx.input with head_offset := 0, tail_offset := 0,
                                data := List.replicate ctx.input.buffer_size 0 },
      write_buffer := [],
      read_buffer := [],
      read_entry_offset := 0,
      input_read_buffer := [],
      input_read_entry_offset := 0,
      flags := ctx.flags &&& (UINT32_MASK ^^^
        (DMLOG_FLAG_CLEAR_BUFFER ||| DMLOG_FLAG_INPUT_AVAILABLE |||
         DMLOG_FLAG_INPUT_REQUESTED ||| DMLOG_FLAG_FILE_SEND ||| DMLOG_FLAG_FILE_RECV)),
      file_chunk_buffer := 0,
      file_chunk_size := 0,
      file_chunk_number := 0,
      file_total_size := 0,
      file_path := [],
      file_path_pc := [] }
  context_unlock ctx

/-- dmlog.c `dmlog_clear` (lines 585-613). -/
def dmlog_clear (octx : Option dmlog_ctx) : Option dmlog_ctx :=
  match octx with
  | none => none
  | some ctx =>
    if ctx.magic = DMLOG_MAGIC_NUMBER then some (dmlog_clear_body ctx) else some ctx

/-- dmlog.c `dmlog_left_entry_space` (lines 277-287). -/
def dmlog_left_entry_space (octx : Option dmlog_ctx) : Nat :=
  match octx with
  | none => 0
  | some ctx =>
    if ctx.magic = DMLOG_MAGIC_NUMBER then
      DMOD_LOG_MAX_ENTRY_SIZE - ctx.write_buffer.length
    else 0

/-- The flush loop of dmlog.c `dmlog_flush` (lines 424-435): for each pending
byte, drop the oldest ring byte if the free space is 0, then push; break with
result false if the push still fails. -/
def flush_loop : List Nat → dmlog_ring → Bool × dmlog_ring
  | [], r => (true, r)
  | b :: rest, r =>
    let r1 := if get_free_space r = 0 then (read_byte_from_tail r).2.2 else r
    let res := write_byte_to_tail r1 b
    if res.1 then flush_loop rest res.2 else (false, res.2)

/-- Body of dmlog.c `dmlog_flush` (lines 416-443) on a valid context. -/
def dmlog_flush_body (ctx : dmlog_ctx) : Bool × dmlog_ctx :=
  let ctx := context_lock ctx
  let res := flush_loop ctx.write_buffer ctx.ring
  let ctx := { ctx with ring := res.2, write_buffer := [] }
  (res.1, context_unlock ctx)

/-- dmlog.c `dmlog_flush` (lines 416-443). -/
def dmlog_flush (octx : Option dmlog_ctx) : Bool × Option dmlog_ctx :=
  match octx with
  | none => (false, none)
  | some ctx =>
    if ctx.magic = DMLOG_MAGIC_NUMBER then
      let res := dmlog_flush_body ctx
      (res.1, some res.2)
    else (false, some ctx)

/-- The accumulator store `write_buffer[write_entry_offset++] = c` of
dmlog.c line 314. -/
def putc_append (ctx : dmlog_ctx) (c : Nat) : dmlog_ctx :=
  { ctx with write_buffer := ctx.write_buffer ++ [c] }

/-- The CLEAR_BUFFER service of dmlog.c `dmlog_putc` lines 303-307. -/
def putc_clear_check (ctx : dmlog_ctx) : dmlog_ctx :=
  if ctx.flags &&& DMLOG_FLAG_CLEAR_BUFFER ≠ 0 then
    let ctx := dmlog_clear_body ctx
    { ctx with flags := ctx.flags &&& (UINT32_MASK ^^^ DMLOG_FLAG_CLEAR_BUFFER) }
  else ctx

/-- Body of dmlog.c `dmlog_putc` (lines 296-325) on a valid context. -/
def dmlog_putc_body (ctx : dmlog_ctx) (c : Nat) : Bool × dmlog_ctx :=
  let ctx := context_lock ctx
  let ctx := putc_clear_check ctx
  let ctx :=
    if DMOD_LOG_MAX_ENTRY_SIZE - ctx.write_buffer.length = 0 then
      (dmlog_flush_body ctx).2
    else ctx
  let res :=
    if DMOD_LOG_MAX_ENTRY_SIZE - ctx.write_buffer.length > 0 then
      (true, putc_append ctx c)
    else (false, ctx)
  let res := if c = 10 then dmlog_flush_body res.2 else res
  (res.1, context_unlock res.2)

/-- dmlog.c `dmlog_putc` (lines 296-325). -/
def dmlog_putc (octx : Option dmlog_ctx) (c : Nat) : Bool × Option dmlog_ctx :=
  match octx with
  | none => (false, none)
  | some ctx =>
    if ctx.magic = DMLOG_MAGIC_NUMBER then
      let res := dmlog_putc_body ctx c
      (res.1, some res.2)
    else (false, some ctx)

/-- The character loop of dmlog.c `dmlog_puts` (lines 343-350). -/
def puts_loop : List Nat → dmlog_ctx → Bool × dmlog_ctx
  | [], ctx => (true, ctx)
  | c :: rest, ctx =>
    let res := dmlog_putc_body ctx c
    if res.1 then puts_loop rest res.2 else (false, res.2)

/-- Body of dmlog.c `dmlog_puts` (lines 334-359) on a valid context.  The C
string argument is the list of its bytes before the NUL terminator, so
`strlen s` is `s.length` and `s[len-1]` is `s.getLast?`. -/
def dmlog_puts_body (ctx : dmlog_ctx) (s : List Nat) : Bool × dmlog_ctx :=
  let ctx := context_lock ctx
  let res := puts_loop s ctx
  let res :=
    if res.1 ∧ s.length > 0 ∧ s.getLast? ≠ some 10 then
      dmlog_flush_body res.2
    else res
  (res.1, context_unlock res.2)

/-- dmlog.c `dmlog_puts` (lines 334-359). -/
def dmlog_puts (octx : Option dmlog_ctx) (s : List Nat) : Bool × Option dmlog_ctx :=
  match octx with
  | none => (false, none)
  | some ctx =>
    if ctx.magic = DMLOG_MAGIC_NUMBER then
      let res := dmlog_puts_body ctx s
      (res.1, some res.2)
    else (false, some ctx)

/-- The character loop of dmlog.c `dmlog_putsn` (lines 375-385): stop at a NUL
byte or on a putc failure, discarding the failure. -/
def putsn_loop : List Nat → dmlog_ctx → dmlog_ctx
  | [], ctx => ctx
  | c :: rest, ctx =>
    if c = 0 then ctx
    else
      let res := dmlog_putc_body ctx c
      if res.1 then putsn_loop rest res.2 else res.2

/-- Body of dmlog.c `dmlog_putsn` (lines 369-390) on a valid context (note:
putsn takes no context lock of its own and its result is the flush result). -/
def dmlog_putsn_body (ctx : dmlog_ctx) (s : List Nat) (n : Nat) : Bool × dmlog_ctx :=
  dmlog_flush_body (putsn_loop (s.take n) ctx)

/-- dmlog.c `dmlog_putsn` (lines 369-390). -/
def dmlog_putsn (octx : Option dmlog_ctx) (s : List Nat) (n : Nat) : Bool × Option dmlog_ctx :=
  match octx with
  | none => (false, none)
  | some ctx =>
    if ctx.magic = DMLOG_MAGIC_NUMBER then
      let res := dmlog_putsn_body ctx s n
      (res.1, some res.2)
    else (false, some ctx)

/-- dmlog.c `dmlog_get_free_space` (lines 398-408). -/
def dmlog_get_free_space (octx : Option dmlog_ctx) : Nat :=
  match octx with
  | none => 0
  | some ctx =>
    if ctx.magic = DMLOG_MAGIC_NUMBER then get_free_space ctx.ring else 0

/-- The record-reading loop of dmlog.c `dmlog_read_next` (lines 463-481) and of
`dmlog_input_getc` (lines 736-753): pop bytes until the ring is empty, a
newline was stored, or the remaining capacity `n` (initially
DMOD_LOG_MAX_ENTRY_SIZE - 1) is exhausted.  `acc` is the record accumulated in
the read buffer so far. -/
def read_loop : Nat → dmlog_ring → List Nat → List Nat × dmlog_ring
  | 0, r, acc => (acc, r)
  | n + 1, r, acc =>
    let res := read_byte_from_tail r
    if res.1 then (acc, res.2.2)
    else if res.2.1 = 10 then (acc ++ [res.2.1], res.2.2)
    else read_loop n res.2.2 (acc ++ [res.2.1])

/-- Body of dmlog.c `dmlog_read_next` (lines 451-494) on a valid context.
The C result is true iff at least one byte was read. -/
def dmlog_read_next_body (ctx : dmlog_ctx) : Bool × dmlog_ctx :=
  let ctx := context_lock ctx
  let res := read_loop (DMOD_LOG_MAX_ENTRY_SIZE - 1) ctx.ring []
  let ctx := { ctx with ring := res.2, read_buffer := res.1, read_entry_offset := 0 }
  (res.1.length > 0, context_unlock ctx)

/-- dmlog.c `dmlog_read_next` (lines 451-494). -/
def dmlog_read_next (octx : Option dmlog_ctx) : Bool × Option dmlog_ctx :=
  match octx with
  | none => (false, none)
  | some ctx =>
    if ctx.magic = DMLOG_MAGIC_NUMBER then
      let res := dmlog_read_next_body ctx
      (res.1, some res.2)
    else (false, some ctx)

/-- Body of dmlog.c `dmlog_getc` (lines 520-542) on a valid context.  NOTE:
this mirrors the source exactly, including the early `return '\0'` on a failed
`dmlog_read_next` (line 533), which returns WITHOUT calling `context_unlock`. -/
def dmlog_getc_body (ctx : dmlog_ctx) : Nat × dmlog_ctx :=
  let ctx := context_lock ctx
  if ctx.read_entry_offset ≥ DMOD_LOG_MAX_ENTRY_SIZE ∨
     ctx.read_buffer.getD ctx.read_entry_offset 0 = 0 then
    let res := dmlog_read_next_body ctx
    if res.1 = false then
      (0, res.2)
    else
      let ctx := { res.2 with read_entry_offset := 0 }
      let c := ctx.read_buffer.getD ctx.read_entry_offset 0
      let ctx := { ctx with read_entry_offset := ctx.read_entry_offset + 1 }
      (c, context_unlock ctx)
  else
    let c := ctx.read_buffer.getD ctx.read_entry_offset 0
    let ctx := { ctx with read_entry_offset := ctx.read_entry_offset + 1 }
    (c, context_unlock ctx)

/-- dmlog.c `dmlog_getc` (lines 520-542). -/
def dmlog_getc (octx : Option dmlog_ctx) : Nat × Option dmlog_ctx :=
  match octx with
  | none => (0, none)
  | some ctx =>
    if ctx.magic = DMLOG_MAGIC_NUMBER then
      let res := dmlog_getc_body ctx
      (res.1, some res.2)
    else (0, some ctx)

/-- strlen over the modelled read buffer: index of the first NUL byte
(the list models the bytes stored before the implicit trailing zeros,
so a missing 0 means the terminator sits right after the list). -/
def strlen_of (l : List Nat) : Nat := l.findIdx (fun b => b == 0)

/-- The copy loop of dmlog.c `dmlog_gets` (lines 563-571): at most
`max_len - 1` characters, stopping at the precomputed strlen bound
`read_len` or after copying a newline. -/
def gets_loop : Nat → Nat → dmlog_ctx → List Nat → List Nat × dmlog_ctx
  | 0, _, ctx, acc => (acc, ctx)
  | n + 1, read_len, ctx, acc =>
    if ctx.read_entry_offset < read_len then
      let c := ctx.read_buffer.getD ctx.read_entry_offset 0
      let ctx := { ctx with read_entry_offset := ctx.read_entry_offset + 1 }
      if c = 10 then (acc ++ [c], ctx)
      else gets_loop n read_len ctx (acc ++ [c])
    else (acc, ctx)

/-- Body of dmlog.c `dmlog_gets` (lines 552-578) on a valid context; returns
(result, bytes written to the caller buffer, context). -/
def dmlog_gets_body (ctx : dmlog_ctx) (max_len : Nat) : Bool × List Nat × dmlog_ctx :=
  let ctx := context_lock ctx
  let read_len := strlen_of ctx.read_buffer
  let res := gets_loop (max_len - 1) read_len ctx []
  (res.1.length > 0, res.1, context_unlock res.2)

/-- dmlog.c `dmlog_gets` (lines 552-578).  On an invalid context the caller
buffer is untouched (modelled by the empty byte list). -/
def dmlog_gets (octx : Option dmlog_ctx) (max_len : Nat) : Bool × List Nat × Option dmlog_ctx :=
  match octx with
  | none => (false, [], none)
  | some ctx =>
    if ctx.magic = DMLOG_MAGIC_NUMBER then
      let res := dmlog_gets_body ctx max_len
      (res.1, res.2.1, some res.2.2)
    else (false, [], some ctx)

/-- dmlog.c `dmlog_input_available` (lines 684-694). -/
def dmlog_input_available (octx : Option dmlog_ctx) : Bool :=
  match octx with
  | none => false
  | some ctx =>
    if ctx.magic = DMLOG_MAGIC_NUMBER then
      ctx.input.tail_offset ≠ ctx.input.head_offset
    else false

/-- dmlog.c `dmlog_input_get_free_space` (lines 702-712); `get_input_free_space`
is `get_free_space` over the input field set. -/
def dmlog_input_get_free_space (octx : Option dmlog_ctx) : Nat :=
  match octx with
  | none => 0
  | some ctx =>
    if ctx.magic = DMLOG_MAGIC_NUMBER then get_free_space ctx.input else 0

/-- Body of dmlog.c `dmlog_input_getc` (lines 720-779) on a valid context. -/
def dmlog_input_getc_body (ctx : dmlog_ctx) : Nat × dmlog_ctx :=
  let ctx := context_lock ctx
  let ctx :=
    if ctx.input_read_entry_offset ≥ DMOD_LOG_MAX_ENTRY_SIZE ∨
       ctx.input_read_buffer.getD ctx.input_read_entry_offset 0 = 0 then
      let res := read_loop (DMOD_LOG_MAX_ENTRY_SIZE - 1) ctx.input []
      let ctx := { ctx with input := res.2, input_read_buffer := res.1,
                            input_read_entry_offset := 0 }
      if ctx.input.tail_offset = ctx.input.head_offset then
        { ctx with flags := ctx.flags &&& (UINT32_MASK ^^^ DMLOG_FLAG_INPUT_AVAILABLE) }
      else ctx
    else ctx
  let res :=
    if ctx.input_read_buffer.getD ctx.input_read_entry_offset 0 ≠ 0 then
      (ctx.input_read_buffer.getD ctx.input_read_entry_offset 0,
       { ctx with input_read_entry_offset := ctx.input_read_entry_offset + 1 })
    else (0, ctx)
  (res.1, context_unlock res.2)

/-- dmlog.c `dmlog_input_getc` (lines 720-779). -/
def dmlog_input_getc (octx : Option dmlog_ctx) : Nat × Option dmlog_ctx :=
  match octx with
  | none => (0, none)
  | some ctx =>
    if ctx.magic = DMLOG_MAGIC_NUMBER then
      let res := dmlog_input_getc_body ctx
      (res.1, some res.2)
    else (0, some ctx)

/-- The character loop of dmlog.c `dmlog_input_gets` (lines 798-810). -/
def input_gets_loop : Nat → dmlog_ctx → List Nat → List Nat × dmlog_ctx
  | 0, ctx, acc => (acc, ctx)
  | n + 1, ctx, acc =>
    let res := dmlog_input_getc_body ctx
    if res.1 = 0 then (acc, res.2)
    else if res.1 = 10 then (acc ++ [res.1], res.2)
    else input_gets_loop n res.2 (acc ++ [res.1])

/-- Body of dmlog.c `dmlog_input_gets` (lines 789-818) on a valid context. -/
def dmlog_input_gets_body (ctx : dmlog_ctx) (max_len : Nat) : Bool × List Nat × dmlog_ctx :=
  let ctx := context_lock ctx
  let res := input_gets_loop (max_len - 1) ctx []
  (res.1.length > 0, res.1, context_unlock res.2)

/-- dmlog.c `dmlog_input_gets` (lines 789-818). -/
def dmlog_input_gets (octx : Option dmlog_ctx) (max_len : Nat) :
    Bool × List Nat × Option dmlog_ctx :=
  match octx with
  | none => (false, [], none)
  | some ctx =>
    if ctx.magic = DMLOG_MAGIC_NUMBER then
      let res := dmlog_input_gets_body ctx max_len
      (res.1, res.2.1, some res.2.2)
    else (false, [], some ctx)

/-- Body of dmlog.c `dmlog_input_request` (lines 828-839) on a valid context. -/
def dmlog_input_request_body (ctx : dmlog_ctx) (flags : Nat) : dmlog_ctx :=
  let ctx := context_lock ctx
  let ctx := { ctx with flags := ctx.flags &&& (UINT32_MASK ^^^ DMLOG_INPUT_REQUEST_MASK) }
  let ctx := { ctx with flags := ctx.flags |||
    (DMLOG_FLAG_INPUT_REQUESTED ||| (flags &&& DMLOG_INPUT_REQUEST_MASK)) }
  context_unlock ctx

/-- dmlog.c `dmlog_input_request` (lines 828-839). -/
def dmlog_input_request (octx : Option dmlog_ctx) (flags : Nat) : Option dmlog_ctx :=
  match octx with
  | none => none
  | some ctx =>
    if ctx.magic = DMLOG_MAGIC_NUMBER then
      some (dmlog_input_request_body ctx flags)
    else some ctx

/-- dmlog.c `copy_file_path` (lines 847-856): store the path truncated to
DMLOG_MAX_FILE_PATH - 1 bytes (plus the NUL terminator, implicit here). -/
def copy_file_path (src : List Nat) : List Nat :=
  src.take (DMLOG_MAX_FILE_PATH - 1)

/-- One per-chunk interaction of the monitor with dmlog.c `dmlog_recvf`:
the values the monitor leaves in `file_chunk_size` / `file_chunk_number` when
it clears DMLOG_FLAG_FILE_RECV, and whether the firmware-side
`Dmod_FileWrite` of that chunk succeeds in full. -/
structure recv_chunk where
  chunk_size : Nat
  chunk_number : Nat
  write_ok : Bool
deriving DecidableEq

/-- Environment of a `dmlog_recvf` call: allocator and file-open outcomes, and
the sequence of monitor chunk deliveries (an exhausted sequence models the
bounded-timeout expiry of the wait loop, dmlog.c lines 1072-1082). -/
structure recv_env where
  malloc_ok : Bool
  open_ok : Bool
  chunks : List recv_chunk
deriving DecidableEq

/-- The receive loop of dmlog.c `dmlog_recvf` (lines 1066-1110).  Each
delivered chunk clears DMLOG_FLAG_FILE_RECV and fills the descriptor fields;
the firmware checks the end sentinel (chunk_size 0), then the expected chunk
number, then writes the chunk, and re-asserts the flag for the next chunk. -/
def recvf_loop : List recv_chunk → Nat → dmlog_ctx → Bool × dmlog_ctx
  | [], _, ctx => (false, ctx)
  | ch :: rest, expected_chunk, ctx =>
    let ctx := { ctx with
      flags := ctx.flags &&& (UINT32_MASK ^^^ DMLOG_FLAG_FILE_RECV),
      file_chunk_size := ch.chunk_size,
      file_chunk_number := ch.chunk_number }
    if ctx.file_chunk_size = 0 then (true, ctx)
    else if ctx.file_chunk_number ≠ expected_chunk then (false, ctx)
    else if ch.write_ok = false then (false, ctx)
    else recvf_loop rest (expected_chunk + 1)
      { ctx with flags := ctx.flags ||| DMLOG_FLAG_FILE_RECV }

/-- dmlog.c `dmlog_recvf` (lines 1012-1128).  NULL C strings are `none`. -/
def dmlog_recvf (octx : Option dmlog_ctx) (file_path_fw file_path_pc : Option (List Nat))
    (chunk_size : Nat) (env : recv_env) : Bool × Option dmlog_ctx :=
  match octx with
  | none => (false, none)
  | some ctx =>
    if ctx.magic ≠ DMLOG_MAGIC_NUMBER ∨ file_path_fw = none ∨ file_path_pc = none then
      (false, some ctx)
    else
      let chunk_size := if chunk_size = 0 then DMLOG_DEFAULT_CHUNK_SIZE else chunk_size
      let ctx := context_lock ctx
      if env.malloc_ok = false then (false, some (context_unlock ctx))
      else if env.open_ok = false then (false, some (context_unlock ctx))
      else
        let ctx := { ctx with
          file_path := copy_file_path (file_path_fw.getD []),
          file_path_pc := copy_file_path (file_path_pc.getD []),
          file_chunk_buffer := 1,
          file_chunk_size := chunk_size,
          file_chunk_number := 0,
          file_total_size := 0 }
        let ctx := { ctx with flags := ctx.flags ||| DMLOG_FLAG_FILE_RECV }
        let res := recvf_loop env.chunks 0 ctx
        let ctx := { res.2 with
          file_chunk_buffer := 0, file_chunk_size := 0, file_chunk_number := 0,
          file_total_size := 0, file_path := [], file_path_pc := [] }
        (res.1, some (context_unlock ctx))

/-- One per-chunk interaction of `dmlog_sendf` with its environment: whether
`Dmod_FileRead` returned the full chunk, and whether the monitor cleared
DMLOG_FLAG_FILE_SEND before the bounded timeout expired. -/
structure send_event where
  read_ok : Bool
  ack : Bool
deriving DecidableEq

/-- Environment of a `dmlog_sendf` call. -/
structure send_env where
  open_ok : Bool
  file_size : Nat
  malloc_ok : Bool
  events : List send_event
deriving DecidableEq

/-- The send loop of dmlog.c `dmlog_sendf` (lines 934-974); an exhausted event
sequence models a failed `Dmod_FileRead`. -/
def sendf_loop : List send_event → Nat → Nat → Nat → dmlog_ctx → Bool × dmlog_ctx
  | _, 0, _, _, ctx => (true, ctx)
  | [], _ + 1, _, _, ctx => (false, ctx)
  | e :: rest, br + 1, chunk_size, chunk_number, ctx =>
    let current_chunk_size := if br + 1 > chunk_size then chunk_size else br + 1
    if e.read_ok = false then (false, ctx)
    else
      let ctx := { ctx with
        file_chunk_number := chunk_number,
        file_chunk_size := current_chunk_size,
        flags := ctx.flags ||| DMLOG_FLAG_FILE_SEND }
      if e.ack = false then (false, ctx)
      else
        let ctx := { ctx with flags := ctx.flags &&& (UINT32_MASK ^^^ DMLOG_FLAG_FILE_SEND) }
        sendf_loop rest (br + 1 - current_chunk_size) chunk_size (chunk_number + 1) ctx

/-- dmlog.c `dmlog_sendf` (lines 876-992). -/
def dmlog_sendf (octx : Option dmlog_ctx) (file_path_fw file_path_pc : Option (List Nat))
    (chunk_size : Nat) (env : send_env) : Bool × Option dmlog_ctx :=
  match octx with
  | none => (false, none)
  | some ctx =>
    if ctx.magic ≠ DMLOG_MAGIC_NUMBER ∨ file_path_fw = none ∨ file_path_pc = none then
      (false, some ctx)
    else
      let chunk_size := if chunk_size = 0 then DMLOG_DEFAULT_CHUNK_SIZE else chunk_size
      let ctx := context_lock ctx
      if env.open_ok = false then (false, some (context_unlock ctx))
      else if env.file_size > DMLOG_MAX_FILE_SIZE then (false, some (context_unlock ctx))
      else if env.malloc_ok = false then (false, some (context_unlock ctx))
      else
        let ctx := { ctx with
          file_path := copy_file_path (file_path_fw.getD []),
          file_path_pc := copy_file_path (file_path_pc.getD []),
          file_total_size := env.file_size,
          file_chunk_buffer := 1 }
        let res := sendf_loop env.events env.file_size chunk_size 0 ctx
        let ctx := { res.2 with
          file_chunk_buffer := 0, file_chunk_size := 0, file_chunk_number := 0,
          file_total_size := 0, file_path := [], file_path_pc := [] }
        (res.1, some (context_unlock ctx))

/-- dmlog.c `dmlog_destroy` (lines 244-255). -/
def dmlog_destroy (octx : Option dmlog_ctx) : Option dmlog_ctx :=
  match octx with
  | none => none
  | some ctx =>
    if ctx.magic = DMLOG_MAGIC_NUMBER then
      let ctx := context_lock ctx
      let ctx := dmlog_clear_body ctx
      let ctx := { ctx with magic := 0 }
      some (context_unlock ctx)
    else some ctx

/-- The buffer split of dmlog.c `dmlog_create` (lines 199-209): the payload
left after the control structure is given to the input ring up to the
configured DMLOG_INPUT_BUFFER_SIZE, falling back to a fifth of the payload
when that configured size does not fit; the output ring takes the rest.
Returns (output_buffer_size, input_buffer_size). -/
def dmlog_create_split (total_buffer_size : Nat) : Nat × Nat :=
  let input_buffer_size :=
    if DMLOG_INPUT_BUFFER_SIZE ≥ total_buffer_size then
      total_buffer_size / 5
    else DMLOG_INPUT_BUFFER_SIZE
  (total_buffer_size - input_buffer_size, input_buffer_size)

/-- dmlog.c `dmlog_create` (lines 181-237).  `control_size` is the layout
distance from the context base to its trailing byte array
(`offsetof(struct dmlog_ctx, buffer)`), kept as a parameter because it is
target-dependent; `already_valid` tells whether the supplied region already
holds a valid magic (the C checks `dmlog_is_valid` on the raw buffer).  The
`buffer_size > control_size` assertion of line 197 is modelled as a guard.
The initial version line is emitted through `dmlog_puts` as in line 234. -/
def dmlog_create (buffer_size control_size : Nat) (already_valid : Bool) : Option dmlog_ctx :=
  if buffer_size < sizeof_dmlog_ring_t then none
  else if already_valid then none
  else if buffer_size ≤ control_size then none
  else
    let total_buffer_size := buffer_size - control_size
    let split := dmlog_create_split total_buffer_size
    let ctx : dmlog_ctx :=
      { magic := DMLOG_MAGIC_NUMBER,
        flags := 0,
        ring := { buffer_size := split.1, head_offset := 0, tail_offset := 0,
                  data := List.replicate split.1 0 },
        input := { buffer_size := split.2, head_offset := 0, tail_offset := 0,
                   data := List.replicate split.2 0 },
        write_buffer := [],
        read_buffer := [],
        read_entry_offset := 0,
        input_read_buffer := [],
        input_read_entry_offset := 0,
        lock_recursion := 0,
        file_chunk_buffer := 0,
        file_chunk_size := 0,
        file_chunk_number := 0,
        file_total_size := 0,
        file_path := [],
        file_path_pc := [] }
    some (dmlog_puts_body ctx DMLOG_VERSION_STRING).2


/-! ## Ring invariants and basic lemmas -/

/-- Well-formed ring: both control-block indices are in range and the byte
store has exactly `buffer_size` bytes. -/
def ring_wf (r : dmlog_ring) : Prop :=
  r.head_offset < r.buffer_size ∧ r.tail_offset < r.buffer_size ∧
    r.data.length = r.buffer_size

instance (r : dmlog_ring) : Decidable (ring_wf r) := by
  unfold ring_wf; infer_instance

/-! ## Derived observers, invariants, harnesses and test fixtures -/

/-- The last `n` elements of a list (all of it when it is shorter). -/
def takeLast {α : Type} (n : Nat) (l : List α) : List α := l.drop (l.length - n)

/-- All bytes logically appended but not yet readable taken together: ring
contents followed by the pending write accumulator. -/
def pending (ctx : dmlog_ctx) : List Nat := ringContents ctx.ring ++ ctx.write_buffer

/-- Steady-state context invariant of the firmware write path: valid magic,
well-formed output ring, accumulator within its 500-byte array, and no
pending CLEAR_BUFFER command. -/
def ctx_inv (ctx : dmlog_ctx) : Prop :=
  ctx.magic = DMLOG_MAGIC_NUMBER ∧
  ring_wf ctx.ring ∧
  ctx.write_buffer.length ≤ DMOD_LOG_MAX_ENTRY_SIZE ∧
  ctx.flags &&& DMLOG_FLAG_CLEAR_BUFFER = 0

/-- Test harness for the drain loop of the round-trip property: call
`dmlog_read_next` (its valid-context body) repeatedly, concatenating the
delivered records (each read through `dmlog_get_ref_buffer`, i.e. the
context read buffer), until it reports an empty ring or the fuel runs out. -/
def drain_records : Nat → dmlog_ctx → List Nat
  | 0, _ => []
  | n + 1, ctx =>
    let res := dmlog_read_next_body ctx
    if res.1 then res.2.read_buffer ++ drain_records n res.2 else []

/-- The bound invariant of the spec: for a ring of positive size, head and
tail stay strictly below the size. -/
def ring_ok (r : dmlog_ring) : Prop :=
  0 < r.buffer_size → r.head_offset < r.buffer_size ∧ r.tail_offset < r.buffer_size

instance (r : dmlog_ring) : Decidable (ring_ok r) := by
  unfold ring_ok; infer_instance

/-- Bound invariant for both rings of a context. -/
def ctx_ok (ctx : dmlog_ctx) : Prop := ring_ok ctx.ring ∧ ring_ok ctx.input

instance (ctx : dmlog_ctx) : Decidable (ctx_ok ctx) := by
  unfold ctx_ok; infer_instance

/-! ## Concrete test fixtures -/

/-- A fresh valid context with 8-byte rings, as produced by a clear. -/
def test_ctx_empty : dmlog_ctx :=
  { magic := DMLOG_MAGIC_NUMBER, flags := 0,
    ring := { buffer_size := 8, head_offset := 0, tail_offset := 0,
              data := List.replicate 8 0 },
    input := { buffer_size := 8, head_offset := 0, tail_offset := 0,
               data := List.replicate 8 0 },
    write_buffer := [], read_buffer := [], read_entry_offset := 0,
    input_read_buffer := [], input_read_entry_offset := 0, lock_recursion := 0,
    file_chunk_buffer := 0, file_chunk_size := 0, file_chunk_number := 0,
    file_total_size := 0, file_path := [], file_path_pc := [] }

/-- The same context with an invalid magic word. -/
def test_ctx_bad : dmlog_ctx := { test_ctx_empty with magic := 0 }

/-- A valid context whose output ring has size 1 (reachable through
`dmlog_create` when the payload after the control structure is 513 bytes:
the input ring takes the configured 512, leaving 1), with one pending byte. -/
def test_ctx_size1 : dmlog_ctx :=
  { test_ctx_empty with
    ring := { buffer_size := 1, head_offset := 0, tail_offset := 0, data := [0] },
    write_buffer := [65] }

/-- A valid context with a 4-byte output ring and five pending bytes. -/
def test_ctx_size4 : dmlog_ctx :=
  { test_ctx_empty with
    ring := { buffer_size := 4, head_offset := 0, tail_offset := 0,
              data := List.replicate 4 0 },
    write_buffer := [1, 2, 3, 10, 5] }

/-- An empty 4-byte ring. -/
def test_ring4 : dmlog_ring :=
  { buffer_size := 4, head_offset := 0, tail_offset := 0, data := List.replicate 4 0 }

/-- A ring with head 5, tail 2 in an 8-byte store. -/
def test_ring8 : dmlog_ring :=
  { buffer_size := 8, head_offset := 5, tail_offset := 2, data := List.replicate 8 0 }

/-- A valid context holding the record bytes "H\nx" in its output ring. -/
def test_ctx_rec : dmlog_ctx :=
  { test_ctx_empty with
    ring := { buffer_size := 8, head_offset := 3, tail_offset := 0,
              data := [72, 10, 120, 0, 0, 0, 0, 0] } }

/-- A context with nonzero flags and offsets, for exercising `dmlog_clear`. -/
def test_ctx_dirty : dmlog_ctx :=
  { test_ctx_empty with
    flags := 0xFF,
    ring := { buffer_size := 8, head_offset := 5, tail_offset := 2,
              data := [1, 2, 3, 4, 5, 6, 7, 8] },
    input := { buffer_size := 8, head_offset := 1, tail_offset := 7,
               data := [9, 9, 9, 9, 9, 9, 9, 9] },
    write_buffer := [65, 66], read_buffer := [67], read_entry_offset := 1,
    file_chunk_size := 3, file_chunk_number := 2, file_total_size := 9,
    file_path := [47, 97], file_path_pc := [47, 98] }

/-- The context created over a 7216-byte region with the LP64 control-layout
offset 2096 (the payload is 5120 bytes). -/
def test_created : dmlog_ctx := (dmlog_create 7216 2096 false).getD test_ctx_empty

/-- A sequence of flushes: each element of `css` is one accumulator content
pushed through `flush_loop` (dmlog.c lines 425-436); the boolean is the
conjunction of the per-flush results. -/
def flush_all : List (List Nat) → dmlog_ring → Bool × dmlog_ring
  | [], r => (true, r)
  | cs :: rest, r =>
    let res := flush_loop cs r
    let res2 := flush_all rest res.2
    (res.1 && res2.1, res2.2)

instance (ctx : dmlog_ctx) : Decidable (ctx_inv ctx) := by
  unfold ctx_inv; infer_instance

/-! ## Ring lemmas -/

theorem dm_mod_add_inj {s t i j : Nat} (hi : i < s) (hj : j < s)
    (h : (t + i) % s = (t + j) % s) : i = j := by
  have h2 : i ≡ j [MOD s] := Nat.ModEq.add_left_cancel' t h
  have h3 : i % s = j % s := h2
  rw [Nat.mod_eq_of_lt hi, Nat.mod_eq_of_lt hj] at h3
  exact h3

theorem dm_getD_set_ne (l : List Nat) (i j b d : Nat) (h : i ≠ j) :
    (l.set i b).getD j d = l.getD j d := by
  simp [List.getD, List.getElem?_set_ne h]

theorem dm_getD_set_self (l : List Nat) (i b d : Nat) (h : i < l.length) :
    (l.set i b).getD i d = b := by
  simp [List.getD, List.getElem?_set_self, h]

theorem dm_used_lt (r : dmlog_ring) (hwf : ring_wf r) :
    used_bytes r < r.buffer_size := by
  obtain ⟨hh, ht, _⟩ := hwf
  unfold used_bytes get_left_data_in_buffer
  split <;> omega

theorem dm_used_zero_iff (r : dmlog_ring) (hwf : ring_wf r) :
    used_bytes r = 0 ↔ r.head_offset = r.tail_offset := by
  obtain ⟨hh, ht, _⟩ := hwf
  unfold used_bytes get_left_data_in_buffer
  split <;> omega

theorem dm_head_eq (r : dmlog_ring) (hwf : ring_wf r) :
    r.head_offset = (r.tail_offset + used_bytes r) % r.buffer_size := by
  obtain ⟨hh, ht, _⟩ := hwf
  unfold used_bytes get_left_data_in_buffer
  split
  · have h1 : r.tail_offset + (r.head_offset - r.tail_offset) = r.head_offset := by omega
    rw [h1, Nat.mod_eq_of_lt hh]
  · have h1 : r.tail_offset + (r.buffer_size - (r.tail_offset - r.head_offset)) =
        r.buffer_size + r.head_offset := by omega
    rw [h1, Nat.add_mod_left, Nat.mod_eq_of_lt hh]

theorem dm_length_ringContents (r : dmlog_ring) :
    (ringContents r).length = used_bytes r := by
  simp [ringContents]

theorem dm_contents_empty (r : dmlog_ring) (h : used_bytes r = 0) :
    ringContents r = [] := by
  simp [ringContents, h]

theorem dm_free_used (r : dmlog_ring) (hwf : ring_wf r) :
    get_free_space r + used_bytes r = r.buffer_size - 1 := by
  obtain ⟨hh, ht, _⟩ := hwf
  simp only [get_free_space, used_bytes, get_left_data_in_buffer]
  split <;> split <;> omega

theorem dm_free_zero_iff (r : dmlog_ring) (hwf : ring_wf r) :
    get_free_space r = 0 ↔ used_bytes r = r.buffer_size - 1 := by
  have h1 := dm_free_used r hwf
  have h2 := dm_used_lt r hwf
  omega

/-- Full characterization of a successful pop: the empty flag is false, the
byte popped is the head of the contents, the tail advances, and one used byte
disappears. -/
theorem dm_pop_spec (r : dmlog_ring) (hwf : ring_wf r)
    (hne : r.tail_offset ≠ r.head_offset) :
    (read_byte_from_tail r).1 = false ∧
    ring_wf (read_byte_from_tail r).2.2 ∧
    ringContents r = (read_byte_from_tail r).2.1 :: ringContents (read_byte_from_tail r).2.2 ∧
    used_bytes (read_byte_from_tail r).2.2 + 1 = used_bytes r ∧
    (read_byte_from_tail r).2.2.head_offset = r.head_offset ∧
    (read_byte_from_tail r).2.2.buffer_size = r.buffer_size ∧
    (read_byte_from_tail r).2.2.data = r.data := by
  obtain ⟨hh, ht, hd⟩ := hwf
  have hs : 0 < r.buffer_size := Nat.lt_of_le_of_lt (Nat.zero_le _) hh
  have hstep : read_byte_from_tail r = (false, r.data.getD r.tail_offset 0,
      { r with tail_offset := (r.tail_offset + 1) % r.buffer_size }) := by
    rw [read_byte_from_tail, if_neg hne]
  rw [hstep]
  have htl : (r.tail_offset + 1) % r.buffer_size < r.buffer_size := Nat.mod_lt _ hs
  have hused : used_bytes { r with tail_offset := (r.tail_offset + 1) % r.buffer_size } + 1 =
      used_bytes r := by
    rcases Nat.lt_or_ge (r.tail_offset + 1) r.buffer_size with hlt | hge
    · have hmod : (r.tail_offset + 1) % r.buffer_size = r.tail_offset + 1 :=
        Nat.mod_eq_of_lt hlt
      simp only [used_bytes, get_left_data_in_buffer, hmod]
      split <;> split <;> omega
    · have heq : r.tail_offset + 1 = r.buffer_size := by omega
      have hmod : (r.tail_offset + 1) % r.buffer_size = 0 := by
        rw [heq, Nat.mod_self]
      simp only [used_bytes, get_left_data_in_buffer, hmod]
      split <;> split <;> omega
  refine ⟨rfl, ⟨hh, htl, hd⟩, ?_, hused, rfl, rfl, rfl⟩
  have hu : used_bytes r ≠ 0 := by
    intro h0
    exact hne ((dm_used_zero_iff r ⟨hh, ht, hd⟩).1 h0).symm
  obtain ⟨u, hu1⟩ : ∃ u, used_bytes r = u + 1 := by
    rcases Nat.exists_eq_succ_of_ne_zero hu with ⟨u, h⟩
    exact ⟨u, h⟩
  have hu2 : used_bytes { r with tail_offset := (r.tail_offset + 1) % r.buffer_size } = u := by
    omega
  unfold ringContents
  rw [hu1, hu2, List.range_succ_eq_map]
  simp only [List.map_cons, List.map_map]
  congr 1
  · rw [Nat.add_zero, Nat.mod_eq_of_lt ht]
  · apply List.map_congr_left
    intro i _
    simp only [Function.comp]
    rw [Nat.mod_add_mod]
    have heq2 : (r.tail_offset + 1) + i = r.tail_offset + Nat.succ i := by omega
    rw [heq2]

/-- Full characterization of a push into a ring with at least one free slot:
the byte lands at the head, which advances; contents gain the byte at the
end. -/
theorem dm_push_spec (r : dmlog_ring) (b : Nat) (hwf : ring_wf r)
    (hroom : used_bytes r + 1 < r.buffer_size) :
    (write_byte_to_tail r b).1 = true ∧
    ring_wf (write_byte_to_tail r b).2 ∧
    ringContents (write_byte_to_tail r b).2 = ringContents r ++ [b] ∧
    used_bytes (write_byte_to_tail r b).2 = used_bytes r + 1 ∧
    (write_byte_to_tail r b).2.tail_offset = r.tail_offset ∧
    (write_byte_to_tail r b).2.buffer_size = r.buffer_size := by
  obtain ⟨hh, ht, hd⟩ := hwf
  have hs : 0 < r.buffer_size := Nat.lt_of_le_of_lt (Nat.zero_le _) hh
  have hnext : (r.head_offset + 1) % r.buffer_size ≠ r.tail_offset := by
    intro hcon
    rcases Nat.lt_or_ge (r.head_offset + 1) r.buffer_size with hlt | hge
    · rw [Nat.mod_eq_of_lt hlt] at hcon
      revert hroom
      simp only [used_bytes, get_left_data_in_buffer]
      split <;> omega
    · have heq : r.head_offset + 1 = r.buffer_size := by omega
      have hmod : (r.head_offset + 1) % r.buffer_size = 0 := by rw [heq, Nat.mod_self]
      rw [hmod] at hcon
      revert hroom
      simp only [used_bytes, get_left_data_in_buffer]
      split <;> omega
  have hstep : write_byte_to_tail r b = (true, { r with data := r.data.set r.head_offset b, head_offset := (r.head_offset + 1) % r.buffer_size }) := by
    rw [write_byte_to_tail]
    simp only [if_neg hnext]
  rw [hstep]
  have hhl : (r.head_offset + 1) % r.buffer_size < r.buffer_size := Nat.mod_lt _ hs
  have hused : used_bytes ({ r with data := r.data.set r.head_offset b, head_offset := (r.head_offset + 1) % r.buffer_size }) = used_bytes r + 1 := by
    rcases Nat.lt_or_ge (r.head_offset + 1) r.buffer_size with hlt | hge
    · have hmod : (r.head_offset + 1) % r.buffer_size = r.head_offset + 1 :=
        Nat.mod_eq_of_lt hlt
      revert hroom
      simp only [used_bytes, get_left_data_in_buffer, hmod]
      split <;> split <;> omega
    · have heq : r.head_offset + 1 = r.buffer_size := by omega
      have hmod : (r.head_offset + 1) % r.buffer_size = 0 := by rw [heq, Nat.mod_self]
      revert hroom
      simp only [used_bytes, get_left_data_in_buffer, hmod]
      split <;> split <;> omega
  refine ⟨rfl, ⟨hhl, ht, by simp [hd]⟩, ?_, hused, rfl, rfl⟩
  have hheq := dm_head_eq r ⟨hh, ht, hd⟩
  unfold ringContents
  rw [hused, List.range_succ]
  simp only [List.map_append, List.map_cons, List.map_nil]
  congr 1
  · apply List.map_congr_left
    intro i hi
    rw [List.mem_range] at hi
    have hul : used_bytes r < r.buffer_size := by omega
    have hne2 : (r.tail_offset + i) % r.buffer_size ≠ r.head_offset := by
      intro hcon
      rw [hheq] at hcon
      have := dm_mod_add_inj (Nat.lt_trans hi hul) hul hcon
      omega
    exact dm_getD_set_ne _ _ _ _ _ (fun h => hne2 h.symm)
  · rw [← hheq]
    rw [dm_getD_set_self _ _ _ _ (by omega)]

/-! ## takeLast: the suffix observer used to state the drop-head policy -/

theorem takeLast_of_le {α : Type} {n : Nat} {l : List α} (h : l.length ≤ n) :
    takeLast n l = l := by
  unfold takeLast
  have h1 : l.length - n = 0 := by omega
  rw [h1, List.drop_zero]

theorem takeLast_length {α : Type} {n : Nat} {l : List α} (h : n ≤ l.length) :
    (takeLast n l).length = n := by
  unfold takeLast
  rw [List.length_drop]
  omega

theorem takeLast_cons {α : Type} {n : Nat} (x : α) (l : List α) (h : n ≤ l.length) :
    takeLast n (x :: l) = takeLast n l := by
  unfold takeLast
  have h1 : (x :: l).length - n = (l.length - n) + 1 := by
    simp only [List.length_cons]
    omega
  rw [h1, List.drop_succ_cons]

theorem takeLast_append_takeLast {α : Type} (n : Nat) (xs ys : List α) :
    takeLast n (takeLast n xs ++ ys) = takeLast n (xs ++ ys) := by
  rcases Nat.le_total xs.length n with h | h
  · rw [takeLast_of_le h]
  · unfold takeLast
    rw [List.drop_append_eq_append_drop, List.drop_append_eq_append_drop, List.drop_drop]
    simp only [List.length_append, List.length_drop]
    congr 1
    · congr 1
      omega
    · congr 1
      omega

/-! ## The flush loop: drop-head overrun policy -/

/-- For a ring of size at least 2, one flush iteration (evict the oldest byte
when the free space is 0, then push) always succeeds, and the whole loop
leaves the ring holding the last `size - 1` bytes of old-contents ++ pending. -/
theorem dm_flush_loop_spec (bs : List Nat) : ∀ (r : dmlog_ring), ring_wf r →
    2 ≤ r.buffer_size →
    (flush_loop bs r).1 = true ∧
    ring_wf (flush_loop bs r).2 ∧
    (flush_loop bs r).2.buffer_size = r.buffer_size ∧
    ringContents (flush_loop bs r).2 =
      takeLast (r.buffer_size - 1) (ringContents r ++ bs) := by
  induction bs with
  | nil =>
    intro r hwf h2
    refine ⟨rfl, hwf, rfl, ?_⟩
    simp only [flush_loop]
    rw [List.append_nil]
    have hl := dm_length_ringContents r
    have hu := dm_used_lt r hwf
    rw [takeLast_of_le (by omega)]
  | cons b rest ih =>
    intro r hwf h2
    by_cases hfree : get_free_space r = 0
    · have hused : used_bytes r = r.buffer_size - 1 := (dm_free_zero_iff r hwf).1 hfree
      have hne : r.tail_offset ≠ r.head_offset := by
        intro he
        have h0 : used_bytes r = 0 := (dm_used_zero_iff r hwf).2 he.symm
        omega
      obtain ⟨hemp, hwf1, hcont1, hused1, hh1, hsz1, hdata1⟩ := dm_pop_spec r hwf hne
      have hroom : used_bytes (read_byte_from_tail r).2.2 + 1 <
          (read_byte_from_tail r).2.2.buffer_size := by
        rw [hsz1]; omega
      obtain ⟨hok, hwf2, hcont2, hused2, ht2, hsz2⟩ :=
        dm_push_spec (read_byte_from_tail r).2.2 b hwf1 hroom
      have hloop : flush_loop (b :: rest) r =
          flush_loop rest (write_byte_to_tail (read_byte_from_tail r).2.2 b).2 := by
        simp only [flush_loop, if_pos hfree]
        rw [hok]
        simp
      rw [hloop]
      have hszeq : (write_byte_to_tail (read_byte_from_tail r).2.2 b).2.buffer_size =
          r.buffer_size := by rw [hsz2, hsz1]
      obtain ⟨ihr, ihwf, ihsz, ihcont⟩ :=
        ih (write_byte_to_tail (read_byte_from_tail r).2.2 b).2 hwf2 (by omega)
      refine ⟨ihr, ihwf, by rw [ihsz, hszeq], ?_⟩
      rw [ihcont, hszeq, hcont2, hcont1]
      have hlen1 : (ringContents (read_byte_from_tail r).2.2).length = r.buffer_size - 2 := by
        rw [dm_length_ringContents]
        omega
      have hlen2 : r.buffer_size - 1 ≤
          (ringContents (read_byte_from_tail r).2.2 ++ b :: rest).length := by
        simp only [List.length_append, List.length_cons, hlen1]
        omega
      rw [List.cons_append, takeLast_cons _ _ hlen2, List.append_assoc, List.singleton_append]
    · have hused : used_bytes r ≠ r.buffer_size - 1 := by
        intro he
        exact hfree ((dm_free_zero_iff r hwf).2 he)
      have hul := dm_used_lt r hwf
      have hroom : used_bytes r + 1 < r.buffer_size := by omega
      obtain ⟨hok, hwf2, hcont2, hused2, ht2, hsz2⟩ := dm_push_spec r b hwf hroom
      have hloop : flush_loop (b :: rest) r =
          flush_loop rest (write_byte_to_tail r b).2 := by
        simp only [flush_loop, if_neg hfree]
        rw [hok]
        simp
      rw [hloop]
      obtain ⟨ihr, ihwf, ihsz, ihcont⟩ := ih (write_byte_to_tail r b).2 hwf2 (by omega)
      refine ⟨ihr, ihwf, by rw [ihsz, hsz2], ?_⟩
      rw [ihcont, hsz2, hcont2, List.append_assoc, List.singleton_append]

/-- Without overflow (enough free space for all pending bytes) the flush loop
is a plain append. -/
theorem dm_flush_loop_no_evict (bs : List Nat) : ∀ (r : dmlog_ring), ring_wf r →
    used_bytes r + bs.length + 1 ≤ r.buffer_size →
    (flush_loop bs r).1 = true ∧
    ring_wf (flush_loop bs r).2 ∧
    (flush_loop bs r).2.buffer_size = r.buffer_size ∧
    ringContents (flush_loop bs r).2 = ringContents r ++ bs ∧
    used_bytes (flush_loop bs r).2 = used_bytes r + bs.length := by
  induction bs with
  | nil =>
    intro r hwf h
    exact ⟨rfl, hwf, rfl, by simp only [flush_loop]; rw [List.append_nil], by simp [flush_loop]⟩
  | cons b rest ih =>
    intro r hwf h
    simp only [List.length_cons] at h
    have hfree : get_free_space r ≠ 0 := by
      rw [Ne, dm_free_zero_iff r hwf]
      have := dm_used_lt r hwf
      omega
    have hroom : used_bytes r + 1 < r.buffer_size := by omega
    obtain ⟨hok, hwf2, hcont2, hused2, ht2, hsz2⟩ := dm_push_spec r b hwf hroom
    have hloop : flush_loop (b :: rest) r = flush_loop rest (write_byte_to_tail r b).2 := by
      simp only [flush_loop, if_neg hfree]
      rw [hok]
      simp
    rw [hloop]
    obtain ⟨ihr, ihwf, ihsz, ihcont, ihused⟩ :=
      ih (write_byte_to_tail r b).2 hwf2 (by rw [hused2, hsz2]; omega)
    refine ⟨ihr, ihwf, by rw [ihsz, hsz2], ?_, ?_⟩
    · rw [ihcont, hcont2, List.append_assoc, List.singleton_append]
    · rw [ihused, hused2]
      simp only [List.length_cons]
      omega

/-! ## The record read loop -/

theorem dm_read_loop_acc (n : Nat) : ∀ (r : dmlog_ring) (acc : List Nat),
    (read_loop n r acc).1 = acc ++ (read_loop n r []).1 ∧
    (read_loop n r acc).2 = (read_loop n r []).2 := by
  induction n with
  | zero =>
    intro r acc
    simp [read_loop]
  | succ n ih =>
    intro r acc
    simp only [read_loop]
    cases h1 : (read_byte_from_tail r).1 with
    | true => simp
    | false =>
      by_cases h2 : (read_byte_from_tail r).2.1 = 10
      · simp [h2]
      · simp only [Bool.false_eq_true, if_false, if_neg h2, List.nil_append]
        obtain ⟨ha, hb⟩ := ih (read_byte_from_tail r).2.2 (acc ++ [(read_byte_from_tail r).2.1])
        obtain ⟨hc, hd⟩ := ih (read_byte_from_tail r).2.2 [(read_byte_from_tail r).2.1]
        refine ⟨?_, by rw [hb, hd]⟩
        rw [ha, hc, List.append_assoc]

/-- Full characterization of the record read loop: it removes a prefix of the
ring contents of bounded length, in which a newline can appear only as the
last byte, and it stops only at the capacity bound, at a newline, or on an
emptied ring. -/
theorem dm_read_loop_spec (n : Nat) : ∀ (r : dmlog_ring), ring_wf r →
    ring_wf (read_loop n r []).2 ∧
    (read_loop n r []).2.buffer_size = r.buffer_size ∧
    (read_loop n r []).1 ++ ringContents (read_loop n r []).2 = ringContents r ∧
    (read_loop n r []).1.length ≤ n ∧
    (∀ i, i + 1 < (read_loop n r []).1.length → (read_loop n r []).1.getD i 0 ≠ 10) ∧
    ((read_loop n r []).1.length = n ∨ (read_loop n r []).1.getLast? = some 10 ∨
      ringContents (read_loop n r []).2 = []) := by
  induction n with
  | zero =>
    intro r hwf
    refine ⟨hwf, rfl, by simp [read_loop], by simp [read_loop], ?_, ?_⟩
    · intro i hi
      simp [read_loop] at hi
    · left
      simp [read_loop]
  | succ n ih =>
    intro r hwf
    cases h1 : (read_byte_from_tail r).1 with
    | true =>
      have hemp : r.tail_offset = r.head_offset := by
        by_contra hne
        have hf := (dm_pop_spec r hwf hne).1
        rw [h1] at hf
        exact Bool.noConfusion hf
      have hr : (read_byte_from_tail r).2.2 = r := by
        simp [read_byte_from_tail, hemp]
      have hloop : read_loop (n + 1) r [] = ([], r) := by
        simp [read_loop, h1, hr]
      rw [hloop]
      have hcont : ringContents r = [] := by
        apply dm_contents_empty
        exact (dm_used_zero_iff r hwf).2 hemp.symm
      refine ⟨hwf, rfl, by simp, by simp, ?_, Or.inr (Or.inr hcont)⟩
      intro i hi
      simp at hi
    | false =>
      have hne : r.tail_offset ≠ r.head_offset := by
        intro he
        simp [read_byte_from_tail, he] at h1
      obtain ⟨hemp, hwf1, hcont1, hused1, hh1, hsz1, hdata1⟩ := dm_pop_spec r hwf hne
      by_cases h2 : (read_byte_from_tail r).2.1 = 10
      · have hloop : read_loop (n + 1) r [] =
            ([(read_byte_from_tail r).2.1], (read_byte_from_tail r).2.2) := by
          simp [read_loop, h1, h2]
        rw [hloop]
        refine ⟨hwf1, hsz1, by rw [List.singleton_append, ← hcont1], by simp, ?_, ?_⟩
        · intro i hi
          simp at hi
        · right; left
          simp [h2]
      · have hloop : read_loop (n + 1) r [] =
            read_loop n (read_byte_from_tail r).2.2 [(read_byte_from_tail r).2.1] := by
          simp [read_loop, h1, h2]
        obtain ⟨ha, hb⟩ := dm_read_loop_acc n (read_byte_from_tail r).2.2
          [(read_byte_from_tail r).2.1]
        obtain ⟨iwf, isz, icont, ilen, inl, iend⟩ := ih (read_byte_from_tail r).2.2 hwf1
        rw [hloop, ha, hb]
        refine ⟨iwf, by rw [isz, hsz1], ?_, ?_, ?_, ?_⟩
        · rw [List.singleton_append, List.cons_append, icont, ← hcont1]
        · simp only [List.singleton_append, List.length_cons]
          omega
        · intro i hi
          simp only [List.singleton_append, List.length_cons] at hi
          match i with
          | 0 =>
            simp only [List.singleton_append, List.getD_cons_zero]
            exact h2
          | Nat.succ j =>
            simp only [List.singleton_append, List.getD_cons_succ]
            exact inl j (by omega)
        · rcases iend with hlen | hlast | hempty
          · left
            simp only [List.singleton_append, List.length_cons, hlen]
          · right; left
            cases hqq : (read_loop n (read_byte_from_tail r).2.2 []).1 with
            | nil =>
              rw [hqq] at hlast
              simp at hlast
            | cons c t =>
              rw [hqq] at hlast
              simp only [List.singleton_append, hqq]
              rw [List.getLast?_cons_cons]
              exact hlast
          · right; right
            exact hempty

/-! ## Flag-word bit lemmas -/

theorem dm_land_land (x a k : Nat) : (x &&& a) &&& k = x &&& (a &&& k) :=
  Nat.land_assoc x a k

theorem dm_lor_land_disj (x m k : Nat) (h : m &&& k = 0) : (x ||| m) &&& k = x &&& k := by
  apply Nat.eq_of_testBit_eq
  intro i
  have hmk : (m.testBit i && k.testBit i) = false := by
    rw [← Nat.testBit_land, h, Nat.zero_testBit]
  simp only [Nat.testBit_land, Nat.testBit_lor]
  cases hk : Nat.testBit k i <;> cases hm : Nat.testBit m i <;> simp_all

theorem dm_landc_keep (x a k : Nat) (h : a &&& k = k) : (x &&& a) &&& k = x &&& k := by
  rw [dm_land_land, h]

/-! ## Lock frame lemmas -/

theorem dm_unlock_frame (ctx : dmlog_ctx) :
    (context_unlock ctx).magic = ctx.magic ∧
    (context_unlock ctx).ring = ctx.ring ∧
    (context_unlock ctx).input = ctx.input ∧
    (context_unlock ctx).write_buffer = ctx.write_buffer ∧
    (context_unlock ctx).read_buffer = ctx.read_buffer ∧
    (context_unlock ctx).read_entry_offset = ctx.read_entry_offset ∧
    (context_unlock ctx).input_read_buffer = ctx.input_read_buffer ∧
    (context_unlock ctx).input_read_entry_offset = ctx.input_read_entry_offset := by
  simp only [context_unlock]
  split <;> split <;> simp

theorem dm_unlock_clearbit (ctx : dmlog_ctx) :
    (context_unlock ctx).flags &&& DMLOG_FLAG_CLEAR_BUFFER =
      ctx.flags &&& DMLOG_FLAG_CLEAR_BUFFER := by
  simp only [context_unlock]
  split <;> split <;>
    first
      | rfl
      | rw [dm_landc_keep _ _ _ (by decide)]

theorem dm_lock_clearbit (ctx : dmlog_ctx) :
    (context_lock ctx).flags &&& DMLOG_FLAG_CLEAR_BUFFER =
      ctx.flags &&& DMLOG_FLAG_CLEAR_BUFFER := by
  simp only [context_lock]
  exact dm_lor_land_disj _ _ _ (by decide)

/-! ## Flush body: state frame -/

theorem dm_flush_body_state (ctx : dmlog_ctx) :
    (dmlog_flush_body ctx).1 = (flush_loop ctx.write_buffer ctx.ring).1 ∧
    (dmlog_flush_body ctx).2.magic = ctx.magic ∧
    (dmlog_flush_body ctx).2.ring = (flush_loop ctx.write_buffer ctx.ring).2 ∧
    (dmlog_flush_body ctx).2.input = ctx.input ∧
    (dmlog_flush_body ctx).2.write_buffer = [] ∧
    (dmlog_flush_body ctx).2.read_buffer = ctx.read_buffer ∧
    (dmlog_flush_body ctx).2.read_entry_offset = ctx.read_entry_offset ∧
    (dmlog_flush_body ctx).2.input_read_buffer = ctx.input_read_buffer ∧
    (dmlog_flush_body ctx).2.input_read_entry_offset = ctx.input_read_entry_offset ∧
    (dmlog_flush_body ctx).2.flags &&& DMLOG_FLAG_CLEAR_BUFFER =
      ctx.flags &&& DMLOG_FLAG_CLEAR_BUFFER := by
  simp only [dmlog_flush_body, context_lock]
  refine ⟨trivial, ?_, ?_, ?_, ?_, ?_, ?_, ?_, ?_, ?_⟩
  · rw [(dm_unlock_frame _).1]
  · rw [(dm_unlock_frame _).2.1]
  · rw [(dm_unlock_frame _).2.2.1]
  · rw [(dm_unlock_frame _).2.2.2.1]
  · rw [(dm_unlock_frame _).2.2.2.2.1]
  · rw [(dm_unlock_frame _).2.2.2.2.2.1]
  · rw [(dm_unlock_frame _).2.2.2.2.2.2.1]
  · rw [(dm_unlock_frame _).2.2.2.2.2.2.2]
  · rw [dm_unlock_clearbit]
    exact dm_lor_land_disj _ _ _ (by decide)

/-! ## Context invariant and the no-overflow write path -/

theorem dm_unlock_pending (ctx : dmlog_ctx) :
    pending (context_unlock ctx) = pending ctx := by
  unfold pending
  rw [(dm_unlock_frame ctx).2.1, (dm_unlock_frame ctx).2.2.2.1]

theorem dm_unlock_inv (ctx : dmlog_ctx) (h : ctx_inv ctx) :
    ctx_inv (context_unlock ctx) := by
  obtain ⟨hm, hwf, hwb, hcl⟩ := h
  refine ⟨?_, ?_, ?_, ?_⟩
  · rw [(dm_unlock_frame ctx).1]; exact hm
  · rw [(dm_unlock_frame ctx).2.1]; exact hwf
  · rw [(dm_unlock_frame ctx).2.2.2.1]; exact hwb
  · rw [dm_unlock_clearbit]; exact hcl

theorem dm_flush_body_no_evict (ctx : dmlog_ctx) (hinv : ctx_inv ctx)
    (hcap : (pending ctx).length + 1 ≤ ctx.ring.buffer_size) :
    (dmlog_flush_body ctx).1 = true ∧
    ctx_inv (dmlog_flush_body ctx).2 ∧
    (dmlog_flush_body ctx).2.ring.buffer_size = ctx.ring.buffer_size ∧
    (dmlog_flush_body ctx).2.write_buffer = [] ∧
    (dmlog_flush_body ctx).2.input = ctx.input ∧
    (dmlog_flush_body ctx).2.read_buffer = ctx.read_buffer ∧
    pending (dmlog_flush_body ctx).2 = pending ctx := by
  obtain ⟨hm, hwf, hwb, hcl⟩ := hinv
  have hlen : used_bytes ctx.ring + ctx.write_buffer.length + 1 ≤ ctx.ring.buffer_size := by
    have hh := dm_length_ringContents ctx.ring
    simp only [pending, List.length_append] at hcap
    omega
  obtain ⟨fl1, fl2, fl3, fl4, fl5⟩ := dm_flush_loop_no_evict ctx.write_buffer ctx.ring hwf hlen
  obtain ⟨s1, s2, s3, s4, s5, s6, s7, s8, s9, s10⟩ := dm_flush_body_state ctx
  refine ⟨by rw [s1]; exact fl1, ⟨by rw [s2]; exact hm, by rw [s3]; exact fl2,
    by rw [s5]; simp [DMOD_LOG_MAX_ENTRY_SIZE], by rw [s10]; exact hcl⟩,
    by rw [s3]; exact fl3, s5, s4, s6, ?_⟩
  simp only [pending, s3, s5, fl4, List.append_nil]

/-- The tail of `dmlog_putc`: flush on newline, then unlock. -/
theorem dm_putc_finish (ctx4 : dmlog_ctx) (c : Nat) (hinv : ctx_inv ctx4)
    (hcap : (pending ctx4).length + 1 ≤ ctx4.ring.buffer_size) :
    (if c = 10 then dmlog_flush_body ctx4 else (true, ctx4)).1 = true ∧
    ctx_inv (context_unlock (if c = 10 then dmlog_flush_body ctx4 else (true, ctx4)).2) ∧
    (context_unlock (if c = 10 then dmlog_flush_body ctx4 else (true, ctx4)).2).ring.buffer_size =
      ctx4.ring.buffer_size ∧
    pending (context_unlock (if c = 10 then dmlog_flush_body ctx4 else (true, ctx4)).2) =
      pending ctx4 ∧
    (context_unlock (if c = 10 then dmlog_flush_body ctx4 else (true, ctx4)).2).input =
      ctx4.input ∧
    (context_unlock (if c = 10 then dmlog_flush_body ctx4 else (true, ctx4)).2).read_buffer =
      ctx4.read_buffer ∧
    (c = 10 →
      (context_unlock (if c = 10 then dmlog_flush_body ctx4 else (true, ctx4)).2).write_buffer =
        []) := by
  by_cases h10 : c = 10
  · rw [if_pos h10]
    obtain ⟨f1, finv, fsz, fwb, fin, frb, fpend⟩ := dm_flush_body_no_evict ctx4 hinv hcap
    refine ⟨f1, dm_unlock_inv _ finv, ?_, ?_, ?_, ?_, ?_⟩
    · rw [(dm_unlock_frame _).2.1]; exact fsz
    · rw [dm_unlock_pending]; exact fpend
    · rw [(dm_unlock_frame _).2.2.1]; exact fin
    · rw [(dm_unlock_frame _).2.2.2.2.1]; exact frb
    · intro _
      rw [(dm_unlock_frame _).2.2.2.1]; exact fwb
  · rw [if_neg h10]
    refine ⟨rfl, dm_unlock_inv _ hinv, ?_, ?_, ?_, ?_, ?_⟩
    · rw [(dm_unlock_frame _).2.1]
    · rw [dm_unlock_pending]
    · rw [(dm_unlock_frame _).2.2.1]
    · rw [(dm_unlock_frame _).2.2.2.2.1]
    · intro hc
      exact absurd hc h10

theorem dm_putc_append_pending (ctx : dmlog_ctx) (c : Nat) :
    pending (putc_append ctx c) = pending ctx ++ [c] := by
  simp [pending, putc_append, List.append_assoc]

/-- Effect of `dmlog_putc` on a valid, quiescent context with room for one
more byte: the character is appended to the pending bytes, and the call
succeeds whatever internal flushes it performs. -/
theorem dm_putc_spec (ctx : dmlog_ctx) (c : Nat) (hinv : ctx_inv ctx)
    (hcap : (pending ctx).length + 2 ≤ ctx.ring.buffer_size) :
    (dmlog_putc_body ctx c).1 = true ∧
    ctx_inv (dmlog_putc_body ctx c).2 ∧
    (dmlog_putc_body ctx c).2.ring.buffer_size = ctx.ring.buffer_size ∧
    pending (dmlog_putc_body ctx c).2 = pending ctx ++ [c] ∧
    (dmlog_putc_body ctx c).2.input = ctx.input ∧
    (dmlog_putc_body ctx c).2.read_buffer = ctx.read_buffer ∧
    (c = 10 → (dmlog_putc_body ctx c).2.write_buffer = []) := by
  obtain ⟨hm, hwf, hwb, hcl⟩ := hinv
  have hclL : (context_lock ctx).flags &&& DMLOG_FLAG_CLEAR_BUFFER = 0 := by
    rw [dm_lock_clearbit]; exact hcl
  have hC1 : putc_clear_check (context_lock ctx) = context_lock ctx := by
    rw [putc_clear_check, if_neg (by simp [hclL])]
  have hinvL : ctx_inv (context_lock ctx) := ⟨hm, hwf, hwb, hclL⟩
  simp only [dmlog_putc_body]
  rw [hC1]
  by_cases h5 : DMOD_LOG_MAX_ENTRY_SIZE - (context_lock ctx).write_buffer.length = 0
  · rw [if_pos h5]
    obtain ⟨f1, finv, fsz, fwb, fin, frb, fpend⟩ :=
      dm_flush_body_no_evict (context_lock ctx) hinvL
        (show (pending ctx).length + 1 ≤ ctx.ring.buffer_size by omega)
    rw [if_pos (show DMOD_LOG_MAX_ENTRY_SIZE -
        (dmlog_flush_body (context_lock ctx)).2.write_buffer.length > 0 by
      rw [fwb]
      simp [DMOD_LOG_MAX_ENTRY_SIZE])]
    dsimp only
    have hp4 : pending (putc_append (dmlog_flush_body (context_lock ctx)).2 c) =
        pending ctx ++ [c] := by
      rw [dm_putc_append_pending, fpend]
      rfl
    have hinv4 : ctx_inv (putc_append (dmlog_flush_body (context_lock ctx)).2 c) := by
      refine ⟨finv.1, finv.2.1, ?_, finv.2.2.2⟩
      show ((dmlog_flush_body (context_lock ctx)).2.write_buffer ++ [c]).length ≤
        DMOD_LOG_MAX_ENTRY_SIZE
      rw [fwb]
      simp [DMOD_LOG_MAX_ENTRY_SIZE]
    have hcap4 : (pending (putc_append (dmlog_flush_body (context_lock ctx)).2 c)).length + 1 ≤
        (putc_append (dmlog_flush_body (context_lock ctx)).2 c).ring.buffer_size := by
      rw [hp4]
      show (pending ctx ++ [c]).length + 1 ≤
        (dmlog_flush_body (context_lock ctx)).2.ring.buffer_size
      rw [fsz]
      show (pending ctx ++ [c]).length + 1 ≤ ctx.ring.buffer_size
      simp only [List.length_append, List.length_cons, List.length_nil]
      omega
    obtain ⟨g1, g2, g3, g4, g5, g6, g7⟩ :=
      dm_putc_finish (putc_append (dmlog_flush_body (context_lock ctx)).2 c) c hinv4 hcap4
    refine ⟨g1, g2, ?_, ?_, ?_, ?_, g7⟩
    · rw [g3]
      show (dmlog_flush_body (context_lock ctx)).2.ring.buffer_size = ctx.ring.buffer_size
      rw [fsz]
      try rfl
    · rw [g4, hp4]
    · rw [g5]
      show (dmlog_flush_body (context_lock ctx)).2.input = ctx.input
      rw [fin]
      try rfl
    · rw [g6]
      show (dmlog_flush_body (context_lock ctx)).2.read_buffer = ctx.read_buffer
      rw [frb]
      try rfl
  · rw [if_neg h5]
    have h5x : ¬(DMOD_LOG_MAX_ENTRY_SIZE - ctx.write_buffer.length = 0) := h5
    rw [if_pos (show DMOD_LOG_MAX_ENTRY_SIZE - (context_lock ctx).write_buffer.length > 0 by
      show DMOD_LOG_MAX_ENTRY_SIZE - ctx.write_buffer.length > 0
      omega)]
    dsimp only
    have hp4 : pending (putc_append (context_lock ctx) c) = pending ctx ++ [c] := by
      rw [dm_putc_append_pending]
      rfl
    have hinv4 : ctx_inv (putc_append (context_lock ctx) c) := by
      refine ⟨hm, hwf, ?_, hclL⟩
      show ((context_lock ctx).write_buffer ++ [c]).length ≤ DMOD_LOG_MAX_ENTRY_SIZE
      show (ctx.write_buffer ++ [c]).length ≤ DMOD_LOG_MAX_ENTRY_SIZE
      simp only [List.length_append, List.length_cons, List.length_nil]
      unfold DMOD_LOG_MAX_ENTRY_SIZE at h5x ⊢
      omega
    have hcap4 : (pending (putc_append (context_lock ctx) c)).length + 1 ≤
        (putc_append (context_lock ctx) c).ring.buffer_size := by
      rw [hp4]
      show (pending ctx ++ [c]).length + 1 ≤ ctx.ring.buffer_size
      simp only [List.length_append, List.length_cons, List.length_nil]
      omega
    obtain ⟨g1, g2, g3, g4, g5, g6, g7⟩ :=
      dm_putc_finish (putc_append (context_lock ctx) c) c hinv4 hcap4
    refine ⟨g1, g2, ?_, ?_, ?_, ?_, g7⟩
    · rw [g3]
      rfl
    · rw [g4, hp4]
    · rw [g5]
      rfl
    · rw [g6]
      rfl

/-- Effect of the `dmlog_puts` character loop under no overflow. -/
theorem dm_puts_loop_spec (s : List Nat) : ∀ (ctx : dmlog_ctx), ctx_inv ctx →
    (pending ctx).length + s.length + 1 ≤ ctx.ring.buffer_size →
    (puts_loop s ctx).1 = true ∧
    ctx_inv (puts_loop s ctx).2 ∧
    (puts_loop s ctx).2.ring.buffer_size = ctx.ring.buffer_size ∧
    pending (puts_loop s ctx).2 = pending ctx ++ s ∧
    (puts_loop s ctx).2.input = ctx.input ∧
    (puts_loop s ctx).2.read_buffer = ctx.read_buffer ∧
    (s.getLast? = some 10 → (puts_loop s ctx).2.write_buffer = []) := by
  induction s with
  | nil =>
    intro ctx hinv hcap
    simp only [puts_loop]
    refine ⟨trivial, hinv, trivial, by simp, trivial, trivial, ?_⟩
    intro hlast
    simp at hlast
  | cons c rest ih =>
    intro ctx hinv hcap
    simp only [List.length_cons] at hcap
    obtain ⟨p1, pinv, psz, ppend, pin, prb, pwb⟩ :=
      dm_putc_spec ctx c hinv (by omega)
    have hloop : puts_loop (c :: rest) ctx = puts_loop rest (dmlog_putc_body ctx c).2 := by
      simp only [puts_loop]
      rw [p1]
      simp
    rw [hloop]
    obtain ⟨i1, iinv, isz, ipend, iin, irb, iwb⟩ :=
      ih (dmlog_putc_body ctx c).2 pinv
        (by rw [ppend, psz]
            simp only [List.length_append, List.length_cons, List.length_nil]
            omega)
    refine ⟨i1, iinv, by rw [isz, psz], ?_, by rw [iin, pin], by rw [irb, prb], ?_⟩
    · rw [ipend, ppend, List.append_assoc, List.singleton_append]
    · intro hlast
      cases hrest : rest with
      | nil =>
        rw [hrest] at hlast
        simp at hlast
        subst hrest
        simp only [puts_loop]
        exact pwb hlast
      | cons d t =>
        rw [hrest] at iwb hlast
        rw [List.getLast?_cons_cons] at hlast
        exact iwb hlast

/-- Effect of `dmlog_puts` on a valid quiescent context with an empty write
accumulator and no overflow: every byte of the string ends up in the output
ring, in order, and the accumulator is drained. -/
theorem dm_puts_body_spec (ctx : dmlog_ctx) (s : List Nat) (hinv : ctx_inv ctx)
    (hwbnil : ctx.write_buffer = [])
    (hcap : (pending ctx).length + s.length + 1 ≤ ctx.ring.buffer_size) :
    (dmlog_puts_body ctx s).1 = true ∧
    ctx_inv (dmlog_puts_body ctx s).2 ∧
    (dmlog_puts_body ctx s).2.ring.buffer_size = ctx.ring.buffer_size ∧
    (dmlog_puts_body ctx s).2.write_buffer = [] ∧
    ringContents (dmlog_puts_body ctx s).2.ring = ringContents ctx.ring ++ s ∧
    (dmlog_puts_body ctx s).2.input = ctx.input := by
  obtain ⟨hm, hwf, hwb, hcl⟩ := hinv
  have hclL : (context_lock ctx).flags &&& DMLOG_FLAG_CLEAR_BUFFER = 0 := by
    rw [dm_lock_clearbit]; exact hcl
  have hinvL : ctx_inv (context_lock ctx) := ⟨hm, hwf, hwb, hclL⟩
  obtain ⟨l1, linv, lsz, lpend, lin, lrb, lwb⟩ :=
    dm_puts_loop_spec s (context_lock ctx) hinvL
      (show (pending ctx).length + s.length + 1 ≤ ctx.ring.buffer_size from hcap)
  have hpendctx : pending ctx = ringContents ctx.ring := by
    unfold pending
    rw [hwbnil, List.append_nil]
  simp only [dmlog_puts_body]
  by_cases hlast : s.getLast? = some 10
  · have hcond : ¬((puts_loop s (context_lock ctx)).1 = true ∧ s.length > 0 ∧
        s.getLast? ≠ some 10) := by
      intro hcon
      exact hcon.2.2 hlast
    rw [if_neg hcond]
    have hwbz := lwb hlast
    refine ⟨l1, dm_unlock_inv _ linv, ?_, ?_, ?_, ?_⟩
    · rw [(dm_unlock_frame _).2.1, lsz]
      rfl
    · rw [(dm_unlock_frame _).2.2.2.1]
      exact hwbz
    · rw [(dm_unlock_frame _).2.1]
      have h1 : ringContents (puts_loop s (context_lock ctx)).2.ring =
          pending (puts_loop s (context_lock ctx)).2 := by
        unfold pending
        rw [hwbz, List.append_nil]
      rw [h1, lpend]
      show pending ctx ++ s = ringContents ctx.ring ++ s
      rw [hpendctx]
    · rw [(dm_unlock_frame _).2.2.1, lin]
      rfl
  · by_cases hlen : s.length > 0
    · have hcond : (puts_loop s (context_lock ctx)).1 = true ∧ s.length > 0 ∧
          s.getLast? ≠ some 10 := ⟨l1, hlen, hlast⟩
      rw [if_pos hcond]
      obtain ⟨f1, finv, fsz, fwb, fin, frb, fpend⟩ :=
        dm_flush_body_no_evict (puts_loop s (context_lock ctx)).2 linv
          (by rw [lpend, lsz]
              show (pending ctx ++ s).length + 1 ≤ ctx.ring.buffer_size
              simp only [List.length_append]
              omega)
      refine ⟨f1, dm_unlock_inv _ finv, ?_, ?_, ?_, ?_⟩
      · rw [(dm_unlock_frame _).2.1, fsz, lsz]
        rfl
      · rw [(dm_unlock_frame _).2.2.2.1]
        exact fwb
      · rw [(dm_unlock_frame _).2.1]
        have h1 : ringContents (dmlog_flush_body (puts_loop s (context_lock ctx)).2).2.ring =
            pending (dmlog_flush_body (puts_loop s (context_lock ctx)).2).2 := by
          unfold pending
          rw [fwb, List.append_nil]
        rw [h1, fpend, lpend]
        show pending ctx ++ s = ringContents ctx.ring ++ s
        rw [hpendctx]
      · rw [(dm_unlock_frame _).2.2.1, fin, lin]
        rfl
    · have hsnil : s = [] := by
        cases s with
        | nil => rfl
        | cons a t => simp at hlen
      subst hsnil
      have hcond : ¬((puts_loop ([] : List Nat) (context_lock ctx)).1 = true ∧
          ([] : List Nat).length > 0 ∧ ([] : List Nat).getLast? ≠ some 10) := by
        simp
      rw [if_neg hcond]
      simp only [puts_loop]
      refine ⟨trivial, dm_unlock_inv _ hinvL, ?_, ?_, ?_, ?_⟩
      · rw [(dm_unlock_frame _).2.1]
        rfl
      · rw [(dm_unlock_frame _).2.2.2.1]
        exact hwbnil
      · rw [(dm_unlock_frame _).2.1]
        show ringContents ctx.ring = ringContents ctx.ring ++ []
        simp
      · rw [(dm_unlock_frame _).2.2.1]
        rfl

/-- Full characterization of `dmlog_read_next` on a valid context. -/
theorem dm_read_next_spec (ctx : dmlog_ctx) (hwf : ring_wf ctx.ring) :
    ((dmlog_read_next_body ctx).1 = true ↔ ringContents ctx.ring ≠ []) ∧
    (dmlog_read_next_body ctx).2.magic = ctx.magic ∧
    ring_wf (dmlog_read_next_body ctx).2.ring ∧
    (dmlog_read_next_body ctx).2.ring.buffer_size = ctx.ring.buffer_size ∧
    (dmlog_read_next_body ctx).2.read_buffer ++ ringContents (dmlog_read_next_body ctx).2.ring =
      ringContents ctx.ring ∧
    (dmlog_read_next_body ctx).2.read_buffer.length ≤ DMOD_LOG_MAX_ENTRY_SIZE - 1 ∧
    (∀ i, i + 1 < (dmlog_read_next_body ctx).2.read_buffer.length →
      (dmlog_read_next_body ctx).2.read_buffer.getD i 0 ≠ 10) ∧
    ((dmlog_read_next_body ctx).2.read_buffer.length = DMOD_LOG_MAX_ENTRY_SIZE - 1 ∨
      (dmlog_read_next_body ctx).2.read_buffer.getLast? = some 10 ∨
      ringContents (dmlog_read_next_body ctx).2.ring = []) ∧
    (dmlog_read_next_body ctx).2.write_buffer = ctx.write_buffer ∧
    (dmlog_read_next_body ctx).2.input = ctx.input := by
  obtain ⟨iwf, isz, icont, ilen, inl, iend⟩ :=
    dm_read_loop_spec (DMOD_LOG_MAX_ENTRY_SIZE - 1) ctx.ring hwf
  have hres2 : (dmlog_read_next_body ctx).2 = context_unlock
      { context_lock ctx with
          ring := (read_loop (DMOD_LOG_MAX_ENTRY_SIZE - 1) ctx.ring []).2,
          read_buffer := (read_loop (DMOD_LOG_MAX_ENTRY_SIZE - 1) ctx.ring []).1,
          read_entry_offset := 0 } := rfl
  have hrb : (dmlog_read_next_body ctx).2.read_buffer =
      (read_loop (DMOD_LOG_MAX_ENTRY_SIZE - 1) ctx.ring []).1 := by
    rw [hres2, (dm_unlock_frame _).2.2.2.2.1]
  have hrg : (dmlog_read_next_body ctx).2.ring =
      (read_loop (DMOD_LOG_MAX_ENTRY_SIZE - 1) ctx.ring []).2 := by
    rw [hres2, (dm_unlock_frame _).2.1]
  have hlennil : ringContents ctx.ring = [] →
      (read_loop (DMOD_LOG_MAX_ENTRY_SIZE - 1) ctx.ring []).1 = [] := by
    intro hnil
    have h := icont
    rw [hnil] at h
    exact (List.append_eq_nil.mp h).1
  have hlenpos : ringContents ctx.ring ≠ [] →
      (read_loop (DMOD_LOG_MAX_ENTRY_SIZE - 1) ctx.ring []).1 ≠ [] := by
    intro hne hnil
    rcases iend with hl | hl | hl
    · rw [hnil] at hl
      simp [DMOD_LOG_MAX_ENTRY_SIZE] at hl
    · rw [hnil] at hl
      simp at hl
    · rw [hnil, List.nil_append] at icont
      rw [icont] at hl
      exact hne hl
  refine ⟨?_, by rw [hres2, (dm_unlock_frame _).1]; rfl, by rw [hrg]; exact iwf,
    by rw [hrg, isz], by rw [hrb, hrg]; exact icont, by rw [hrb]; exact ilen,
    by rw [hrb]; exact inl, ?_, by rw [hres2, (dm_unlock_frame _).2.2.2.1]; rfl,
    by rw [hres2, (dm_unlock_frame _).2.2.1]; rfl⟩
  · have hres1 : (dmlog_read_next_body ctx).1 =
        decide ((read_loop (DMOD_LOG_MAX_ENTRY_SIZE - 1) ctx.ring []).1.length > 0) := rfl
    rw [hres1]
    constructor
    · intro hdec hnil
      have hlen0 := hlennil hnil
      rw [hlen0] at hdec
      simp at hdec
    · intro hne
      have hq2 := hlenpos hne
      simp only [decide_eq_true_eq]
      cases hq : (read_loop (DMOD_LOG_MAX_ENTRY_SIZE - 1) ctx.ring []).1 with
      | nil => exact absurd hq hq2
      | cons a t => simp
  · rw [hrb, hrg]
    exact iend

/-- Draining a valid context with enough fuel returns exactly the ring
contents. -/
theorem dm_drain_spec : ∀ (fuel : Nat) (ctx : dmlog_ctx), ring_wf ctx.ring →
    used_bytes ctx.ring ≤ fuel →
    drain_records fuel ctx = ringContents ctx.ring := by
  intro fuel
  induction fuel with
  | zero =>
    intro ctx hwf hfu
    have hnil : ringContents ctx.ring = [] := by
      have hl := dm_length_ringContents ctx.ring
      apply List.eq_nil_of_length_eq_zero
      omega
    rw [hnil]
    rfl
  | succ n ih =>
    intro ctx hwf hfu
    obtain ⟨riff, rm, rwf, rsz, rcont, rlen, rnl, rend, rwb, rin⟩ := dm_read_next_spec ctx hwf
    by_cases hnil : ringContents ctx.ring = []
    · have hres : (dmlog_read_next_body ctx).1 = false := by
        cases hq : (dmlog_read_next_body ctx).1 with
        | false => rfl
        | true => exact absurd hnil (riff.1 hq)
      simp only [drain_records]
      rw [hres]
      simp [hnil]
    · have hres : (dmlog_read_next_body ctx).1 = true := riff.2 hnil
      simp only [drain_records]
      rw [hres, if_pos rfl]
      have hrbne : (dmlog_read_next_body ctx).2.read_buffer ≠ [] := by
        intro hq
        rcases rend with hl | hl | hl
        · rw [hq] at hl
          simp [DMOD_LOG_MAX_ENTRY_SIZE] at hl
        · rw [hq] at hl
          simp at hl
        · apply hnil
          rw [← rcont, hq, List.nil_append, hl]
      have hused : used_bytes (dmlog_read_next_body ctx).2.ring ≤ n := by
        have h1 := dm_length_ringContents ctx.ring
        have h2 := dm_length_ringContents (dmlog_read_next_body ctx).2.ring
        have h3 := congrArg List.length rcont
        simp only [List.length_append] at h3
        have h4 : 1 ≤ (dmlog_read_next_body ctx).2.read_buffer.length := by
          cases hq : (dmlog_read_next_body ctx).2.read_buffer with
          | nil => exact absurd hq hrbne
          | cons a t => simp
        omega
      rw [ih (dmlog_read_next_body ctx).2 rwf hused, rcont]

/-! ## Index-bound preservation -/

theorem dm_pop_ok (r : dmlog_ring) (h : ring_ok r) : ring_ok (read_byte_from_tail r).2.2 := by
  unfold read_byte_from_tail
  split
  · exact h
  · intro hs
    exact ⟨(h hs).1, Nat.mod_lt _ hs⟩

theorem dm_push_ok (r : dmlog_ring) (b : Nat) (h : ring_ok r) :
    ring_ok (write_byte_to_tail r b).2 := by
  simp only [write_byte_to_tail]
  split
  · exact h
  · intro hs
    exact ⟨Nat.mod_lt _ hs, (h hs).2⟩

theorem dm_flush_loop_ok (bs : List Nat) : ∀ r, ring_ok r → ring_ok (flush_loop bs r).2 := by
  induction bs with
  | nil =>
    intro r h
    simpa [flush_loop] using h
  | cons b rest ih =>
    intro r h
    simp only [flush_loop]
    split
    · have h2 := dm_push_ok (read_byte_from_tail r).2.2 b (dm_pop_ok r h)
      split
      · exact ih _ h2
      · exact h2
    · have h2 := dm_push_ok r b h
      split
      · exact ih _ h2
      · exact h2

theorem dm_read_loop_ok (n : Nat) : ∀ r acc, ring_ok r → ring_ok (read_loop n r acc).2 := by
  induction n with
  | zero =>
    intro r acc h
    simpa [read_loop] using h
  | succ n ih =>
    intro r acc h
    simp only [read_loop]
    have h1 : ring_ok (read_byte_from_tail r).2.2 := dm_pop_ok r h
    split
    · exact h1
    · split
      · exact h1
      · exact ih _ _ h1

theorem dm_unlock_ok (ctx : dmlog_ctx) (h : ctx_ok ctx) : ctx_ok (context_unlock ctx) := by
  constructor
  · rw [(dm_unlock_frame ctx).2.1]
    exact h.1
  · rw [(dm_unlock_frame ctx).2.2.1]
    exact h.2

theorem dm_clear_body_ok (ctx : dmlog_ctx) : ctx_ok (dmlog_clear_body ctx) := by
  simp only [dmlog_clear_body]
  apply dm_unlock_ok
  exact ⟨fun hs => ⟨hs, hs⟩, fun hs => ⟨hs, hs⟩⟩

theorem dm_flush_body_ok (ctx : dmlog_ctx) (h : ctx_ok ctx) :
    ctx_ok (dmlog_flush_body ctx).2 := by
  obtain ⟨s1, s2, s3, s4, s5, s6, s7, s8, s9, s10⟩ := dm_flush_body_state ctx
  constructor
  · rw [s3]
    exact dm_flush_loop_ok _ _ h.1
  · rw [s4]
    exact h.2

theorem dm_putc_clear_check_ok (ctx : dmlog_ctx) (h : ctx_ok ctx) :
    ctx_ok (putc_clear_check ctx) := by
  unfold putc_clear_check
  split
  · exact (dm_clear_body_ok ctx : ctx_ok (dmlog_clear_body ctx))
  · exact h

theorem dm_putc_body_ok (ctx : dmlog_ctx) (c : Nat) (h : ctx_ok ctx) :
    ctx_ok (dmlog_putc_body ctx c).2 := by
  simp only [dmlog_putc_body]
  apply dm_unlock_ok
  have h1 : ctx_ok (putc_clear_check (context_lock ctx)) :=
    dm_putc_clear_check_ok (context_lock ctx) h
  repeat' split
  all_goals
    first
      | exact h1
      | exact dm_flush_body_ok _ h1
      | (apply dm_flush_body_ok
         first
           | exact h1
           | exact dm_flush_body_ok _ h1)

theorem dm_puts_loop_ok (s : List Nat) : ∀ ctx, ctx_ok ctx → ctx_ok (puts_loop s ctx).2 := by
  induction s with
  | nil =>
    intro ctx h
    simpa [puts_loop] using h
  | cons c rest ih =>
    intro ctx h
    simp only [puts_loop]
    split
    · exact ih _ (dm_putc_body_ok ctx c h)
    · exact dm_putc_body_ok ctx c h

theorem dm_puts_body_ok (ctx : dmlog_ctx) (s : List Nat) (h : ctx_ok ctx) :
    ctx_ok (dmlog_puts_body ctx s).2 := by
  simp only [dmlog_puts_body]
  apply dm_unlock_ok
  have h1 : ctx_ok (puts_loop s (context_lock ctx)).2 := dm_puts_loop_ok s (context_lock ctx) h
  split
  · exact dm_flush_body_ok _ h1
  · exact h1

theorem dm_putsn_loop_ok (s : List Nat) : ∀ ctx, ctx_ok ctx → ctx_ok (putsn_loop s ctx) := by
  induction s with
  | nil =>
    intro ctx h
    simpa [putsn_loop] using h
  | cons c rest ih =>
    intro ctx h
    simp only [putsn_loop]
    split
    · exact h
    · split
      · exact ih _ (dm_putc_body_ok ctx c h)
      · exact dm_putc_body_ok ctx c h

theorem dm_putsn_body_ok (ctx : dmlog_ctx) (s : List Nat) (n : Nat) (h : ctx_ok ctx) :
    ctx_ok (dmlog_putsn_body ctx s n).2 := by
  simp only [dmlog_putsn_body]
  exact dm_flush_body_ok _ (dm_putsn_loop_ok _ _ h)

theorem dm_read_next_body_ok (ctx : dmlog_ctx) (h : ctx_ok ctx) :
    ctx_ok (dmlog_read_next_body ctx).2 := by
  simp only [dmlog_read_next_body]
  apply dm_unlock_ok
  constructor
  · show ring_ok (read_loop (DMOD_LOG_MAX_ENTRY_SIZE - 1) (context_lock ctx).ring []).2
    exact dm_read_loop_ok _ _ _ h.1
  · exact h.2

theorem dm_getc_body_ok (ctx : dmlog_ctx) (h : ctx_ok ctx) :
    ctx_ok (dmlog_getc_body ctx).2 := by
  simp only [dmlog_getc_body]
  have hL : ctx_ok (context_lock ctx) := h
  have hR : ctx_ok (dmlog_read_next_body (context_lock ctx)).2 :=
    dm_read_next_body_ok (context_lock ctx) hL
  split
  · split
    · exact hR
    · apply dm_unlock_ok
      exact hR
  · apply dm_unlock_ok
    exact hL

theorem dm_gets_loop_frame (n : Nat) : ∀ (read_len : Nat) (ctx : dmlog_ctx) (acc : List Nat),
    (gets_loop n read_len ctx acc).2.ring = ctx.ring ∧
    (gets_loop n read_len ctx acc).2.input = ctx.input := by
  induction n with
  | zero =>
    intro rl ctx acc
    simp [gets_loop]
  | succ n ih =>
    intro rl ctx acc
    simp only [gets_loop]
    split
    · split
      · exact ⟨rfl, rfl⟩
      · exact ih rl _ _
    · exact ⟨rfl, rfl⟩

theorem dm_gets_body_ok (ctx : dmlog_ctx) (max_len : Nat) (h : ctx_ok ctx) :
    ctx_ok (dmlog_gets_body ctx max_len).2.2 := by
  simp only [dmlog_gets_body]
  apply dm_unlock_ok
  constructor
  · rw [(dm_gets_loop_frame _ _ _ _).1]
    exact h.1
  · rw [(dm_gets_loop_frame _ _ _ _).2]
    exact h.2

theorem dm_input_getc_body_ok (ctx : dmlog_ctx) (h : ctx_ok ctx) :
    ctx_ok (dmlog_input_getc_body ctx).2 := by
  simp only [dmlog_input_getc_body]
  apply dm_unlock_ok
  have hmid : ∀ (m : dmlog_ctx), ctx_ok m → ctx_ok
      (if m.input_read_buffer.getD m.input_read_entry_offset 0 ≠ 0 then
        (m.input_read_buffer.getD m.input_read_entry_offset 0,
          { m with input_read_entry_offset := m.input_read_entry_offset + 1 })
      else ((0 : Nat), m)).2 := by
    intro m hm
    split
    · exact hm
    · exact hm
  apply hmid
  split
  · split
    · constructor
      · exact h.1
      · show ring_ok (read_loop (DMOD_LOG_MAX_ENTRY_SIZE - 1) (context_lock ctx).input []).2
        exact dm_read_loop_ok _ _ _ h.2
    · constructor
      · exact h.1
      · show ring_ok (read_loop (DMOD_LOG_MAX_ENTRY_SIZE - 1) (context_lock ctx).input []).2
        exact dm_read_loop_ok _ _ _ h.2
  · exact h

theorem dm_input_gets_loop_ok (n : Nat) : ∀ ctx acc, ctx_ok ctx →
    ctx_ok (input_gets_loop n ctx acc).2 := by
  induction n with
  | zero =>
    intro ctx acc h
    simpa [input_gets_loop] using h
  | succ n ih =>
    intro ctx acc h
    simp only [input_gets_loop]
    have h1 := dm_input_getc_body_ok ctx h
    split
    · exact h1
    · split
      · exact h1
      · exact ih _ _ h1

theorem dm_input_gets_body_ok (ctx : dmlog_ctx) (max_len : Nat) (h : ctx_ok ctx) :
    ctx_ok (dmlog_input_gets_body ctx max_len).2.2 := by
  simp only [dmlog_input_gets_body]
  apply dm_unlock_ok
  exact dm_input_gets_loop_ok _ _ _ h

/-! ## Buffer-size preservation (unconditional) -/

theorem dm_flush_loop_size (bs : List Nat) : ∀ r,
    (flush_loop bs r).2.buffer_size = r.buffer_size := by
  induction bs with
  | nil =>
    intro r
    simp [flush_loop]
  | cons b rest ih =>
    intro r
    simp only [flush_loop]
    split
    · split
      · rw [ih]
        simp only [write_byte_to_tail]
        split
        · simp [read_byte_from_tail]
          split <;> rfl
        · simp only [read_byte_from_tail]
          split <;> rfl
      · simp only [write_byte_to_tail]
        split
        · simp only [read_byte_from_tail]
          split <;> rfl
        · simp only [read_byte_from_tail]
          split <;> rfl
    · split
      · rw [ih]
        simp only [write_byte_to_tail]
        split <;> rfl
      · simp only [write_byte_to_tail]
        split <;> rfl

theorem dm_sizes_unlock (ctx : dmlog_ctx) :
    (context_unlock ctx).ring.buffer_size = ctx.ring.buffer_size ∧
    (context_unlock ctx).input.buffer_size = ctx.input.buffer_size := by
  rw [(dm_unlock_frame ctx).2.1, (dm_unlock_frame ctx).2.2.1]
  exact ⟨rfl, rfl⟩

theorem dm_sizes_clear_body (ctx : dmlog_ctx) :
    (dmlog_clear_body ctx).ring.buffer_size = ctx.ring.buffer_size ∧
    (dmlog_clear_body ctx).input.buffer_size = ctx.input.buffer_size := by
  simp only [dmlog_clear_body]
  rw [(dm_sizes_unlock _).1, (dm_sizes_unlock _).2]
  exact ⟨rfl, rfl⟩

theorem dm_sizes_flush_body (ctx : dmlog_ctx) :
    (dmlog_flush_body ctx).2.ring.buffer_size = ctx.ring.buffer_size ∧
    (dmlog_flush_body ctx).2.input.buffer_size = ctx.input.buffer_size := by
  obtain ⟨s1, s2, s3, s4, s5, s6, s7, s8, s9, s10⟩ := dm_flush_body_state ctx
  rw [s3, s4, dm_flush_loop_size]
  exact ⟨rfl, rfl⟩

theorem dm_sizes_putc_body (ctx : dmlog_ctx) (c : Nat) :
    (dmlog_putc_body ctx c).2.ring.buffer_size = ctx.ring.buffer_size ∧
    (dmlog_putc_body ctx c).2.input.buffer_size = ctx.input.buffer_size := by
  simp only [dmlog_putc_body]
  rw [(dm_sizes_unlock _).1, (dm_sizes_unlock _).2]
  have hcc : (putc_clear_check (context_lock ctx)).ring.buffer_size = ctx.ring.buffer_size ∧
      (putc_clear_check (context_lock ctx)).input.buffer_size = ctx.input.buffer_size := by
    unfold putc_clear_check
    split
    · constructor
      · show (dmlog_clear_body (context_lock ctx)).ring.buffer_size = ctx.ring.buffer_size
        rw [(dm_sizes_clear_body _).1]
        rfl
      · show (dmlog_clear_body (context_lock ctx)).input.buffer_size = ctx.input.buffer_size
        rw [(dm_sizes_clear_body _).2]
        rfl
    · exact ⟨rfl, rfl⟩
  have hnl : ∀ (p : Bool × dmlog_ctx),
      p.2.ring.buffer_size = ctx.ring.buffer_size →
      p.2.input.buffer_size = ctx.input.buffer_size →
      (if c = 10 then dmlog_flush_body p.2 else p).2.ring.buffer_size = ctx.ring.buffer_size ∧
      (if c = 10 then dmlog_flush_body p.2 else p).2.input.buffer_size =
        ctx.input.buffer_size := by
    intro p h1 h2
    split
    · rw [(dm_sizes_flush_body _).1, (dm_sizes_flush_body _).2]
      exact ⟨h1, h2⟩
    · exact ⟨h1, h2⟩
  have hsp : ∀ (m : dmlog_ctx),
      m.ring.buffer_size = ctx.ring.buffer_size →
      m.input.buffer_size = ctx.input.buffer_size →
      ((if DMOD_LOG_MAX_ENTRY_SIZE - m.write_buffer.length > 0 then (true, putc_append m c)
        else (false, m)) : Bool × dmlog_ctx).2.ring.buffer_size = ctx.ring.buffer_size ∧
      ((if DMOD_LOG_MAX_ENTRY_SIZE - m.write_buffer.length > 0 then (true, putc_append m c)
        else (false, m)) : Bool × dmlog_ctx).2.input.buffer_size = ctx.input.buffer_size := by
    intro m h1 h2
    split
    · exact ⟨h1, h2⟩
    · exact ⟨h1, h2⟩
  have hmid : (if DMOD_LOG_MAX_ENTRY_SIZE -
      (putc_clear_check (context_lock ctx)).write_buffer.length = 0 then
      (dmlog_flush_body (putc_clear_check (context_lock ctx))).2
    else putc_clear_check (context_lock ctx)).ring.buffer_size = ctx.ring.buffer_size ∧
    (if DMOD_LOG_MAX_ENTRY_SIZE -
      (putc_clear_check (context_lock ctx)).write_buffer.length = 0 then
      (dmlog_flush_body (putc_clear_check (context_lock ctx))).2
    else putc_clear_check (context_lock ctx)).input.buffer_size = ctx.input.buffer_size := by
    split
    · rw [(dm_sizes_flush_body _).1, (dm_sizes_flush_body _).2]
      exact hcc
    · exact hcc
  apply hnl
  · exact (hsp _ hmid.1 hmid.2).1
  · exact (hsp _ hmid.1 hmid.2).2

theorem dm_sizes_puts_loop (s : List Nat) : ∀ ctx,
    (puts_loop s ctx).2.ring.buffer_size = ctx.ring.buffer_size ∧
    (puts_loop s ctx).2.input.buffer_size = ctx.input.buffer_size := by
  induction s with
  | nil =>
    intro ctx
    simp [puts_loop]
  | cons c rest ih =>
    intro ctx
    simp only [puts_loop]
    split
    · constructor
      · rw [(ih (dmlog_putc_body ctx c).2).1, (dm_sizes_putc_body ctx c).1]
      · rw [(ih (dmlog_putc_body ctx c).2).2, (dm_sizes_putc_body ctx c).2]
    · exact ⟨(dm_sizes_putc_body ctx c).1, (dm_sizes_putc_body ctx c).2⟩

theorem dm_sizes_puts_body (ctx : dmlog_ctx) (s : List Nat) :
    (dmlog_puts_body ctx s).2.ring.buffer_size = ctx.ring.buffer_size ∧
    (dmlog_puts_body ctx s).2.input.buffer_size = ctx.input.buffer_size := by
  simp only [dmlog_puts_body]
  rw [(dm_sizes_unlock _).1, (dm_sizes_unlock _).2]
  split
  · constructor
    · rw [(dm_sizes_flush_body _).1, (dm_sizes_puts_loop s (context_lock ctx)).1]
      rfl
    · rw [(dm_sizes_flush_body _).2, (dm_sizes_puts_loop s (context_lock ctx)).2]
      rfl
  · exact ⟨(dm_sizes_puts_loop s (context_lock ctx)).1,
      (dm_sizes_puts_loop s (context_lock ctx)).2⟩

/-! ## The receive loop: chunk sequencing -/

/-- If, after any run of accepted chunks (nonzero size, consecutive numbers
from `k`, successful writes), the monitor delivers a data chunk whose number
differs from the expected counter, the receive loop aborts with failure. -/
theorem dm_recvf_loop_mismatch (good : List recv_chunk) : ∀ (k : Nat) (bad : recv_chunk)
    (rest : List recv_chunk) (ctx : dmlog_ctx),
    (∀ i, i < good.length → (good.getD i ⟨0, 0, false⟩).chunk_size ≠ 0 ∧
      (good.getD i ⟨0, 0, false⟩).chunk_number = k + i ∧
      (good.getD i ⟨0, 0, false⟩).write_ok = true) →
    bad.chunk_size ≠ 0 → bad.chunk_number ≠ k + good.length →
    (recvf_loop (good ++ bad :: rest) k ctx).1 = false := by
  induction good with
  | nil =>
    intro k bad rest ctx hg hbs hbn
    simp only [List.nil_append, recvf_loop]
    rw [if_neg hbs, if_pos (by simpa using hbn)]
  | cons g gs ih =>
    intro k bad rest ctx hg hbs hbn
    have h0 := hg 0 (by simp)
    simp only [List.getD_cons_zero] at h0
    simp only [List.cons_append, recvf_loop]
    rw [if_neg h0.1, if_neg (by simp [h0.2.1]), if_neg (by simp [h0.2.2])]
    apply ih (k + 1) bad rest
    · intro i hi
      have hgi := hg (i + 1) (by simpa using Nat.succ_lt_succ hi)
      simp only [List.getD_cons_succ] at hgi
      refine ⟨hgi.1, ?_, hgi.2.2⟩
      rw [hgi.2.1]
      omega
    · exact hbs
    · simp only [List.length_cons] at hbn
      intro hcon
      apply hbn
      rw [hcon]
      omega

/-! ## Helper lemmas for the claim theorems -/

/-- Unlocking a context whose recursion depth is exactly 1 clears the BUSY
bit. -/
theorem dm_unlock_flags_one (m : dmlog_ctx) (h : m.lock_recursion = 1) :
    (context_unlock m).flags = m.flags &&& (UINT32_MASK ^^^ DMLOG_FLAG_BUSY) := by
  simp [context_unlock, h]

/-- Field-level postcondition of `dmlog_clear_body` on an unlocked context. -/
theorem dm_clear_body_spec (ctx : dmlog_ctx) (hl : ctx.lock_recursion = 0) :
    (dmlog_clear_body ctx).ring.head_offset = 0 ∧
    (dmlog_clear_body ctx).ring.tail_offset = 0 ∧
    (dmlog_clear_body ctx).input.head_offset = 0 ∧
    (dmlog_clear_body ctx).input.tail_offset = 0 ∧
    (dmlog_clear_body ctx).ring.data =
      List.replicate (dmlog_clear_body ctx).ring.buffer_size 0 ∧
    (dmlog_clear_body ctx).input.data =
      List.replicate (dmlog_clear_body ctx).input.buffer_size 0 ∧
    (dmlog_clear_body ctx).flags &&&
      (DMLOG_FLAG_BUSY ||| DMLOG_FLAG_CLEAR_BUFFER ||| DMLOG_FLAG_INPUT_AVAILABLE |||
       DMLOG_FLAG_INPUT_REQUESTED ||| DMLOG_FLAG_FILE_SEND ||| DMLOG_FLAG_FILE_RECV) = 0 := by
  refine ⟨?_, ?_, ?_, ?_, ?_, ?_, ?_⟩ <;>
    simp only [dmlog_clear_body, context_lock, context_unlock, hl] <;>
    norm_num
  rw [dm_land_land, dm_land_land]
  rw [show (UINT32_MASK ^^^
      (DMLOG_FLAG_CLEAR_BUFFER ||| DMLOG_FLAG_INPUT_AVAILABLE |||
       DMLOG_FLAG_INPUT_REQUESTED ||| DMLOG_FLAG_FILE_SEND ||| DMLOG_FLAG_FILE_RECV)) &&&
      ((UINT32_MASK ^^^ DMLOG_FLAG_BUSY) &&&
      (DMLOG_FLAG_BUSY ||| DMLOG_FLAG_CLEAR_BUFFER ||| DMLOG_FLAG_INPUT_AVAILABLE |||
       DMLOG_FLAG_INPUT_REQUESTED ||| DMLOG_FLAG_FILE_SEND ||| DMLOG_FLAG_FILE_RECV)) = 0
    from by decide]
  exact Nat.and_zero _

/-! ## Claim theorems -/

/-- C3: for in-range head and tail, the free-space computation returns
`size - (head - tail) - 1` when `head ≥ tail` and `tail - head - 1`
otherwise, and the used-byte count (the monitor's
`get_left_data_in_buffer`) satisfies `used + free = size - 1`. -/
theorem claim_C3_free_space (r : dmlog_ring)
    (hh : r.head_offset < r.buffer_size) (ht : r.tail_offset < r.buffer_size) :
    (r.head_offset ≥ r.tail_offset →
      get_free_space r = r.buffer_size - (r.head_offset - r.tail_offset) - 1) ∧
    (r.head_offset < r.tail_offset →
      get_free_space r = r.tail_offset - r.head_offset - 1) ∧
    get_left_data_in_buffer r.head_offset r.tail_offset r.buffer_size + get_free_space r =
      r.buffer_size - 1 := by
  refine ⟨?_, ?_, ?_⟩
  · intro hge
    simp only [get_free_space, if_pos hge]
    split <;> omega
  · intro hlt
    have hge : ¬ r.head_offset ≥ r.tail_offset := by omega
    simp only [get_free_space, if_neg hge]
    split <;> omega
  · simp only [get_free_space, get_left_data_in_buffer]
    by_cases h1 : r.head_offset ≥ r.tail_offset
    · simp only [if_pos h1]
      split <;> omega
    · simp only [if_neg h1]
      split <;> omega

theorem claim_C3_witness :
    (test_ring8.head_offset ≥ test_ring8.tail_offset →
      get_free_space test_ring8 =
        test_ring8.buffer_size - (test_ring8.head_offset - test_ring8.tail_offset) - 1) ∧
    (test_ring8.head_offset < test_ring8.tail_offset →
      get_free_space test_ring8 = test_ring8.tail_offset - test_ring8.head_offset - 1) ∧
    get_left_data_in_buffer test_ring8.head_offset test_ring8.tail_offset
      test_ring8.buffer_size + get_free_space test_ring8 = test_ring8.buffer_size - 1 :=
  claim_C3_free_space test_ring8 (by decide) (by decide)

/-- C5: after `dmlog_clear` returns on a valid context that was not locked at
entry, both rings have zero head and tail offsets, the ring bytes are zeroed,
and the BUSY, CLEAR_BUFFER, INPUT_AVAILABLE, INPUT_REQUESTED, FILE_SEND and
FILE_RECV flag bits are all clear. -/
theorem claim_C5_clear (ctx : dmlog_ctx) (hm : ctx.magic = DMLOG_MAGIC_NUMBER)
    (hl : ctx.lock_recursion = 0) :
    ((dmlog_clear (some ctx)).getD ctx).ring.head_offset = 0 ∧
    ((dmlog_clear (some ctx)).getD ctx).ring.tail_offset = 0 ∧
    ((dmlog_clear (some ctx)).getD ctx).input.head_offset = 0 ∧
    ((dmlog_clear (some ctx)).getD ctx).input.tail_offset = 0 ∧
    ((dmlog_clear (some ctx)).getD ctx).ring.data =
      List.replicate (((dmlog_clear (some ctx)).getD ctx).ring.buffer_size) 0 ∧
    ((dmlog_clear (some ctx)).getD ctx).input.data =
      List.replicate (((dmlog_clear (some ctx)).getD ctx).input.buffer_size) 0 ∧
    ((dmlog_clear (some ctx)).getD ctx).flags &&&
      (DMLOG_FLAG_BUSY ||| DMLOG_FLAG_CLEAR_BUFFER ||| DMLOG_FLAG_INPUT_AVAILABLE |||
       DMLOG_FLAG_INPUT_REQUESTED ||| DMLOG_FLAG_FILE_SEND ||| DMLOG_FLAG_FILE_RECV) = 0 := by
  have hwrap : (dmlog_clear (some ctx)).getD ctx = dmlog_clear_body ctx := by
    simp [dmlog_clear, hm]
  rw [hwrap]
  exact dm_clear_body_spec ctx hl

theorem claim_C5_witness :
    ((dmlog_clear (some test_ctx_dirty)).getD test_ctx_dirty).ring.head_offset = 0 ∧
    ((dmlog_clear (some test_ctx_dirty)).getD test_ctx_dirty).ring.tail_offset = 0 ∧
    ((dmlog_clear (some test_ctx_dirty)).getD test_ctx_dirty).input.head_offset = 0 ∧
    ((dmlog_clear (some test_ctx_dirty)).getD test_ctx_dirty).input.tail_offset = 0 ∧
    ((dmlog_clear (some test_ctx_dirty)).getD test_ctx_dirty).ring.data =
      List.replicate (((dmlog_clear (some test_ctx_dirty)).getD
        test_ctx_dirty).ring.buffer_size) 0 ∧
    ((dmlog_clear (some test_ctx_dirty)).getD test_ctx_dirty).input.data =
      List.replicate (((dmlog_clear (some test_ctx_dirty)).getD
        test_ctx_dirty).input.buffer_size) 0 ∧
    ((dmlog_clear (some test_ctx_dirty)).getD test_ctx_dirty).flags &&&
      (DMLOG_FLAG_BUSY ||| DMLOG_FLAG_CLEAR_BUFFER ||| DMLOG_FLAG_INPUT_AVAILABLE |||
       DMLOG_FLAG_INPUT_REQUESTED ||| DMLOG_FLAG_FILE_SEND ||| DMLOG_FLAG_FILE_RECV) = 0 :=
  claim_C5_clear test_ctx_dirty rfl rfl

/-- C7: every public operation called on an invalid context (NULL pointer or
wrong magic) returns its failure or zero value and leaves the context
unchanged. -/
theorem claim_C7_invalid_ctx (octx : Option dmlog_ctx) (h : dmlog_is_valid octx = false) :
    (∀ c, dmlog_putc octx c = (false, octx)) ∧
    (∀ s, dmlog_puts octx s = (false, octx)) ∧
    (∀ s n, dmlog_putsn octx s n = (false, octx)) ∧
    dmlog_flush octx = (false, octx) ∧
    dmlog_get_free_space octx = 0 ∧
    dmlog_left_entry_space octx = 0 ∧
    dmlog_read_next octx = (false, octx) ∧
    dmlog_getc octx = (0, octx) ∧
    (∀ n, dmlog_gets octx n = (false, [], octx)) ∧
    dmlog_clear octx = octx ∧
    dmlog_input_available octx = false ∧
    dmlog_input_getc octx = (0, octx) ∧
    (∀ n, dmlog_input_gets octx n = (false, [], octx)) ∧
    dmlog_input_get_free_space octx = 0 ∧
    (∀ fl, dmlog_input_request octx fl = octx) ∧
    (∀ fw pc cs env, dmlog_sendf octx fw pc cs env = (false, octx)) ∧
    (∀ fw pc cs env, dmlog_recvf octx fw pc cs env = (false, octx)) ∧
    dmlog_destroy octx = octx := by
  cases octx with
  | none =>
    refine ⟨fun c => rfl, fun s => rfl, fun s n => rfl, rfl, rfl, rfl, rfl, rfl,
      fun n => rfl, rfl, rfl, rfl, fun n => rfl, rfl, fun fl => rfl,
      fun fw pc cs env => rfl, fun fw pc cs env => rfl, rfl⟩
  | some ctx =>
    have hm : ¬(ctx.magic = DMLOG_MAGIC_NUMBER) := by
      simpa [dmlog_is_valid] using h
    refine ⟨fun c => by simp [dmlog_putc, hm], fun s => by simp [dmlog_puts, hm],
      fun s n => by simp [dmlog_putsn, hm], by simp [dmlog_flush, hm],
      by simp [dmlog_get_free_space, hm], by simp [dmlog_left_entry_space, hm],
      by simp [dmlog_read_next, hm], by simp [dmlog_getc, hm],
      fun n => by simp [dmlog_gets, hm], by simp [dmlog_clear, hm],
      by simp [dmlog_input_available, hm], by simp [dmlog_input_getc, hm],
      fun n => by simp [dmlog_input_gets, hm], by simp [dmlog_input_get_free_space, hm],
      fun fl => by simp [dmlog_input_request, hm],
      fun fw pc cs env => by simp [dmlog_sendf, hm],
      fun fw pc cs env => by simp [dmlog_recvf, hm],
      by simp [dmlog_destroy, hm]⟩

theorem claim_C7_witness :
    dmlog_is_valid (some test_ctx_bad) = false ∧
    dmlog_putc (some test_ctx_bad) 65 = (false, some test_ctx_bad) ∧
    dmlog_clear (some test_ctx_bad) = some test_ctx_bad ∧
    dmlog_getc (some test_ctx_bad) = (0, some test_ctx_bad) :=
  ⟨by decide, (claim_C7_invalid_ctx (some test_ctx_bad) (by decide)).1 65,
    (claim_C7_invalid_ctx (some test_ctx_bad) (by decide)).2.2.2.2.2.2.2.2.2.1,
    (claim_C7_invalid_ctx (some test_ctx_bad) (by decide)).2.2.2.2.2.2.2.1⟩

/-- Iterated flushing into a ring of size at least 2 always succeeds and
keeps the most recent `size - 1` bytes of everything appended. -/
theorem dm_flush_all_spec (css : List (List Nat)) : ∀ (r : dmlog_ring), ring_wf r →
    2 ≤ r.buffer_size →
    (flush_all css r).1 = true ∧
    ring_wf (flush_all css r).2 ∧
    (flush_all css r).2.buffer_size = r.buffer_size ∧
    ringContents (flush_all css r).2 =
      takeLast (r.buffer_size - 1) (ringContents r ++ css.flatten) := by
  induction css with
  | nil =>
    intro r hwf h2
    refine ⟨rfl, hwf, rfl, ?_⟩
    simp only [flush_all, List.flatten_nil, List.append_nil]
    have hl := dm_length_ringContents r
    have hu := dm_used_lt r hwf
    rw [takeLast_of_le (by omega)]
  | cons cs rest ih =>
    intro r hwf h2
    obtain ⟨h1, hwf1, hsz1, hcont1⟩ := dm_flush_loop_spec cs r hwf h2
    obtain ⟨i1, iwf, isz, icont⟩ := ih (flush_loop cs r).2 hwf1 (by omega)
    have hstep : flush_all (cs :: rest) r =
        ((flush_loop cs r).1 && (flush_all rest (flush_loop cs r).2).1,
         (flush_all rest (flush_loop cs r).2).2) := rfl
    rw [hstep]
    refine ⟨by rw [h1, i1]; rfl, iwf, by rw [isz, hsz1], ?_⟩
    rw [icont, hsz1, hcont1, takeLast_append_takeLast, List.flatten_cons,
      List.append_assoc]

/-- C1 (amended: the output ring must have size at least 2; a size-1 ring is
reachable through `dmlog_create` and makes every nonempty flush fail — see
the counterexample theorem): on a valid context whose output ring has size
≥ 2, `dmlog_flush` never fails, empties the accumulator, and leaves the ring
holding the most recent `size - 1` bytes of contents ++ accumulator (the
oldest byte is evicted whenever the free space is 0); consequently a
sequence of flushes into an initially empty ring of size ≥ 2 always succeeds
and, once at least `size - 1` bytes have been appended in total, the ring
holds exactly the most recent `size - 1` appended bytes in order. -/
theorem claim_C1_drop_head (ctx : dmlog_ctx) (css : List (List Nat)) (r : dmlog_ring)
    (hm : ctx.magic = DMLOG_MAGIC_NUMBER) (hwf : ring_wf ctx.ring)
    (h2 : 2 ≤ ctx.ring.buffer_size)
    (hwfr : ring_wf r) (h2r : 2 ≤ r.buffer_size) (hemptyr : used_bytes r = 0) :
    (dmlog_flush (some ctx)).1 = true ∧
    ringContents (((dmlog_flush (some ctx)).2.getD ctx).ring) =
      takeLast (ctx.ring.buffer_size - 1) (ringContents ctx.ring ++ ctx.write_buffer) ∧
    ((dmlog_flush (some ctx)).2.getD ctx).write_buffer = [] ∧
    (flush_all css r).1 = true ∧
    ringContents (flush_all css r).2 = takeLast (r.buffer_size - 1) css.flatten ∧
    (r.buffer_size - 1 ≤ css.flatten.length →
      (ringContents (flush_all css r).2).length = r.buffer_size - 1) := by
  obtain ⟨f1, fwf, fsz, fcont⟩ := dm_flush_loop_spec ctx.write_buffer ctx.ring hwf h2
  have hwrap1 : (dmlog_flush (some ctx)).1 = (dmlog_flush_body ctx).1 := by
    simp [dmlog_flush, hm]
  have hwrap2 : (dmlog_flush (some ctx)).2.getD ctx = (dmlog_flush_body ctx).2 := by
    simp [dmlog_flush, hm]
  obtain ⟨s1, _, s3, _, s5, _⟩ := dm_flush_body_state ctx
  obtain ⟨a1, awf, asz, acont⟩ := dm_flush_all_spec css r hwfr h2r
  have hrnil : ringContents r = [] := dm_contents_empty r hemptyr
  refine ⟨?_, ?_, ?_, a1, ?_, ?_⟩
  · rw [hwrap1, s1, f1]
  · rw [hwrap2, s3, fcont]
  · rw [hwrap2, s5]
  · rw [acont, hrnil, List.nil_append]
  · intro hlong
    rw [acont, hrnil, List.nil_append, takeLast_length (by omega)]

theorem claim_C1_witness :
    (dmlog_flush (some test_ctx_size4)).1 = true ∧
    ringContents (((dmlog_flush (some test_ctx_size4)).2.getD test_ctx_size4).ring) =
      takeLast (test_ctx_size4.ring.buffer_size - 1)
        (ringContents test_ctx_size4.ring ++ test_ctx_size4.write_buffer) ∧
    ((dmlog_flush (some test_ctx_size4)).2.getD test_ctx_size4).write_buffer = [] ∧
    (flush_all [[1, 2, 3], [4, 5, 6, 7], [8, 9]] test_ring4).1 = true ∧
    ringContents (flush_all [[1, 2, 3], [4, 5, 6, 7], [8, 9]] test_ring4).2 =
      takeLast (test_ring4.buffer_size - 1) [[1, 2, 3], [4, 5, 6, 7], [8, 9]].flatten ∧
    (test_ring4.buffer_size - 1 ≤ [[1, 2, 3], [4, 5, 6, 7], [8, 9]].flatten.length →
      (ringContents (flush_all [[1, 2, 3], [4, 5, 6, 7], [8, 9]] test_ring4).2).length =
        test_ring4.buffer_size - 1) :=
  claim_C1_drop_head test_ctx_size4 [[1, 2, 3], [4, 5, 6, 7], [8, 9]] test_ring4
    (by decide) (by decide) (by decide) (by decide) (by decide) (by decide)

/-- C1 counterexample: a valid context whose output ring has size 1 (the
split of `dmlog_create` produces such a ring whenever the payload after the
control structure is 513 bytes) has free space 0, and flushing its nonempty
accumulator FAILS: the claimed "flushing never fails for lack of space" does
not hold for it. -/
theorem claim_C1_size1_fails :
    dmlog_is_valid (some test_ctx_size1) = true ∧
    get_free_space test_ctx_size1.ring = 0 ∧
    test_ctx_size1.write_buffer = [65] ∧
    (dmlog_flush (some test_ctx_size1)).1 = false := by decide

/-- A successful `dmlog_create` yields a context whose ring indices are in
bounds. -/
theorem dm_create_ok (b cs : Nat) (v : Bool) (ctx : dmlog_ctx)
    (h : dmlog_create b cs v = some ctx) : ctx_ok ctx := by
  unfold dmlog_create at h
  split_ifs at h
  injection h with h
  subst h
  exact dm_puts_body_ok _ _ ⟨fun hs => ⟨hs, hs⟩, fun hs => ⟨hs, hs⟩⟩

/-- C2: ring index bounds are preserved: a context with both rings' head and
tail in range (whenever the size is positive) keeps that property across
clear, putc, puts, putsn, flush, read_next, getc, gets, input_getc and
input_gets; a context built by `dmlog_create` starts with it; and a single
byte pop or push on any in-bounds ring stays in bounds (all index updates are
taken modulo the ring size or reset to 0). -/
theorem claim_C2_bounds (ctx : dmlog_ctx) (h : ctx_ok ctx) :
    (∀ b cs v ctx2, dmlog_create b cs v = some ctx2 → ctx_ok ctx2) ∧
    ctx_ok (dmlog_clear_body ctx) ∧
    (∀ c, ctx_ok (dmlog_putc_body ctx c).2) ∧
    (∀ s, ctx_ok (dmlog_puts_body ctx s).2) ∧
    (∀ s n, ctx_ok (dmlog_putsn_body ctx s n).2) ∧
    ctx_ok (dmlog_flush_body ctx).2 ∧
    ctx_ok (dmlog_read_next_body ctx).2 ∧
    ctx_ok (dmlog_getc_body ctx).2 ∧
    (∀ n, ctx_ok (dmlog_gets_body ctx n).2.2) ∧
    ctx_ok (dmlog_input_getc_body ctx).2 ∧
    (∀ n, ctx_ok (dmlog_input_gets_body ctx n).2.2) ∧
    (∀ r, ring_ok r → ring_ok (read_byte_from_tail r).2.2) ∧
    (∀ r b, ring_ok r → ring_ok (write_byte_to_tail r b).2) := by
  exact ⟨fun b cs v ctx2 hc => dm_create_ok b cs v ctx2 hc,
    dm_clear_body_ok ctx,
    fun c => dm_putc_body_ok ctx c h,
    fun s => dm_puts_body_ok ctx s h,
    fun s n => dm_putsn_body_ok ctx s n h,
    dm_flush_body_ok ctx h,
    dm_read_next_body_ok ctx h,
    dm_getc_body_ok ctx h,
    fun n => dm_gets_body_ok ctx n h,
    dm_input_getc_body_ok ctx h,
    fun n => dm_input_gets_body_ok ctx n h,
    fun r hr => dm_pop_ok r hr,
    fun r b hr => dm_push_ok r b hr⟩

theorem claim_C2_witness :
    ctx_ok test_ctx_dirty ∧
    ctx_ok (dmlog_putc_body test_ctx_dirty 65).2 ∧
    ctx_ok (dmlog_flush_body test_ctx_dirty).2 ∧
    ctx_ok (dmlog_read_next_body test_ctx_dirty).2 :=
  ⟨by decide, (claim_C2_bounds test_ctx_dirty (by decide)).2.2.1 65,
    (claim_C2_bounds test_ctx_dirty (by decide)).2.2.2.2.2.1,
    (claim_C2_bounds test_ctx_dirty (by decide)).2.2.2.2.2.2.1⟩

/-- C4: log round-trip: on a valid context (steady-state invariant) whose
output ring is empty, whose accumulator is empty, and whose ring is large
enough for the string plus the one permanently unused slot, `dmlog_puts`
succeeds and repeatedly calling `dmlog_read_next` until it reports empty
(the drain harness, with fuel one ring size) concatenates the delivered
records back to exactly the string. -/
theorem claim_C4_roundtrip (ctx : dmlog_ctx) (s : List Nat) (hinv : ctx_inv ctx)
    (hempty : used_bytes ctx.ring = 0) (hwb : ctx.write_buffer = [])
    (hcap : s.length + 1 ≤ ctx.ring.buffer_size) :
    (dmlog_puts_body ctx s).1 = true ∧
    drain_records ctx.ring.buffer_size (dmlog_puts_body ctx s).2 = s := by
  have hrnil : ringContents ctx.ring = [] := dm_contents_empty ctx.ring hempty
  have hpend : (pending ctx).length = 0 := by
    unfold pending
    rw [hrnil, hwb]
    rfl
  obtain ⟨h1, hinv2, hsz, hwb2, hcont, hin⟩ :=
    dm_puts_body_spec ctx s hinv hwb (by omega)
  have hwf2 : ring_wf (dmlog_puts_body ctx s).2.ring := hinv2.2.1
  have hcont2 : ringContents (dmlog_puts_body ctx s).2.ring = s := by
    rw [hcont, hrnil, List.nil_append]
  have hused2 : used_bytes (dmlog_puts_body ctx s).2.ring = s.length := by
    have hl := dm_length_ringContents (dmlog_puts_body ctx s).2.ring
    rw [hcont2] at hl
    omega
  refine ⟨h1, ?_⟩
  rw [dm_drain_spec ctx.ring.buffer_size (dmlog_puts_body ctx s).2 hwf2 (by omega),
    hcont2]

theorem claim_C4_witness :
    (dmlog_puts_body test_ctx_empty [72, 105, 10]).1 = true ∧
    drain_records test_ctx_empty.ring.buffer_size
      (dmlog_puts_body test_ctx_empty [72, 105, 10]).2 = [72, 105, 10] :=
  claim_C4_roundtrip test_ctx_empty [72, 105, 10] (by decide) (by decide) (by decide)
    (by decide)

/-- C6 (code bug): the BUSY lock is NOT always released.  On a valid context
entered with recursion depth 0 and BUSY clear, `dmlog_getc` with nothing to
read takes the early `return '\0'` of dmlog.c line 533 without calling
`context_unlock`: it returns 0 while leaving the lock recursion at 1 and the
BUSY flag set, so the claimed lock balance fails on this path (every other
embedded operation does re-balance the lock). -/
theorem claim_C6_lock_leak :
    test_ctx_empty.lock_recursion = 0 ∧
    test_ctx_empty.flags &&& DMLOG_FLAG_BUSY = 0 ∧
    dmlog_is_valid (some test_ctx_empty) = true ∧
    (dmlog_getc (some test_ctx_empty)).1 = 0 ∧
    ((dmlog_getc (some test_ctx_empty)).2.getD test_ctx_empty).lock_recursion = 1 ∧
    ((dmlog_getc (some test_ctx_empty)).2.getD test_ctx_empty).flags &&& DMLOG_FLAG_BUSY =
      DMLOG_FLAG_BUSY := by decide

/-- C8 (amended: the split is not an 80/20 ratio of the payload; the input
ring gets the fixed configured DMLOG_INPUT_BUFFER_SIZE = 512 bytes, falling
back to one fifth of the payload only when 512 does not fit, and the output
ring takes the remainder): every successful `dmlog_create` splits the
payload after the control structure so that input = if 512 ≥ payload then
payload / 5 else 512, output + input = payload, and the output ring is
non-empty. -/
theorem claim_C8_split (buffer_size control_size : Nat) (ctx : dmlog_ctx)
    (h : dmlog_create buffer_size control_size false = some ctx) :
    ctx.input.buffer_size =
      (if DMLOG_INPUT_BUFFER_SIZE ≥ buffer_size - control_size then
        (buffer_size - control_size) / 5
      else DMLOG_INPUT_BUFFER_SIZE) ∧
    ctx.ring.buffer_size + ctx.input.buffer_size = buffer_size - control_size ∧
    0 < ctx.ring.buffer_size := by
  unfold dmlog_create at h
  split_ifs at h with h1 h2
  injection h with h
  subst h
  obtain ⟨hr, hi⟩ := dm_sizes_puts_body _ DMLOG_VERSION_STRING
  rw [hr, hi]
  show (dmlog_create_split (buffer_size - control_size)).2 = _ ∧
    (dmlog_create_split (buffer_size - control_size)).1 +
      (dmlog_create_split (buffer_size - control_size)).2 = _ ∧
    0 < (dmlog_create_split (buffer_size - control_size)).1
  simp only [dmlog_create_split]
  refine ⟨trivial, ?_, ?_⟩
  · split <;> omega
  · split <;> omega

theorem claim_C8_witness :
    test_created.input.buffer_size =
      (if DMLOG_INPUT_BUFFER_SIZE ≥ 7216 - 2096 then (7216 - 2096) / 5
       else DMLOG_INPUT_BUFFER_SIZE) ∧
    test_created.ring.buffer_size + test_created.input.buffer_size = 7216 - 2096 ∧
    0 < test_created.ring.buffer_size :=
  claim_C8_split 7216 2096 test_created rfl

/-- C8 counterexample: `dmlog_create` over a 7216-byte region whose control
block occupies 2096 bytes succeeds with a 5120-byte payload split
4608/512 — not the claimed 80 % / 20 % ratio, which would give 4096/1024. -/
theorem claim_C8_not_80_20 :
    (dmlog_create 7216 2096 false).isSome = true ∧
    test_created.ring.buffer_size = 4608 ∧
    test_created.input.buffer_size = 512 ∧
    test_created.ring.buffer_size ≠ 4 * (7216 - 2096) / 5 ∧
    test_created.input.buffer_size ≠ (7216 - 2096) / 5 := by
  have hr : test_created.ring.buffer_size = 4608 := by
    show (dmlog_puts_body _ DMLOG_VERSION_STRING).2.ring.buffer_size = 4608
    rw [(dm_sizes_puts_body _ DMLOG_VERSION_STRING).1]
    decide
  have hi : test_created.input.buffer_size = 512 := by
    show (dmlog_puts_body _ DMLOG_VERSION_STRING).2.input.buffer_size = 512
    rw [(dm_sizes_puts_body _ DMLOG_VERSION_STRING).2]
    decide
  refine ⟨rfl, hr, hi, ?_, ?_⟩
  · rw [hr]; decide
  · rw [hi]; decide

/-- C9: file-receive chunk sequencing: during `dmlog_recvf` on a valid
context (with the allocator and file open succeeding), after any run of
accepted chunks — nonzero size, chunk numbers consecutive from 0, successful
writes — a delivered data chunk whose chunk number differs from the expected
counter aborts the transfer: `dmlog_recvf` returns false. -/
theorem claim_C9_chunk_mismatch (ctx : dmlog_ctx) (fw pc : List Nat) (cs : Nat)
    (env : recv_env) (good : List recv_chunk) (bad : recv_chunk)
    (rest : List recv_chunk)
    (hm : ctx.magic = DMLOG_MAGIC_NUMBER)
    (hmal : env.malloc_ok = true) (hop : env.open_ok = true)
    (hch : env.chunks = good ++ bad :: rest)
    (hg : ∀ i, i < good.length → (good.getD i ⟨0, 0, false⟩).chunk_size ≠ 0 ∧
      (good.getD i ⟨0, 0, false⟩).chunk_number = i ∧
      (good.getD i ⟨0, 0, false⟩).write_ok = true)
    (hbs : bad.chunk_size ≠ 0) (hbn : bad.chunk_number ≠ good.length) :
    (dmlog_recvf (some ctx) (some fw) (some pc) cs env).1 = false := by
  simp only [dmlog_recvf, hm, hmal, hop, hch]
  norm_num
  apply dm_recvf_loop_mismatch good 0 bad rest
  · intro i hi
    refine ⟨(hg i hi).1, ?_, (hg i hi).2.2⟩
    rw [Nat.zero_add]
    exact (hg i hi).2.1
  · exact hbs
  · rw [Nat.zero_add]
    exact hbn

theorem claim_C9_witness :
    (dmlog_recvf (some test_ctx_empty) (some [47, 97]) (some [47, 98]) 0
      ⟨true, true, [⟨5, 0, true⟩, ⟨5, 7, true⟩]⟩).1 = false :=
  claim_C9_chunk_mismatch test_ctx_empty [47, 97] [47, 98] 0
    ⟨true, true, [⟨5, 0, true⟩, ⟨5, 7, true⟩]⟩ [⟨5, 0, true⟩] ⟨5, 7, true⟩ []
    rfl rfl rfl rfl (by decide) (by decide) (by decide)

/-- C10: record-size cap on read-back: every successful `dmlog_read_next` on
a valid context delivers into the read buffer a record of at most
DMOD_LOG_MAX_ENTRY_SIZE - 1 = 499 bytes that is exactly the consumed prefix
of the ring contents; a newline can occur only as the record's final byte;
and the read stops only at the 499-byte cap, at a newline, or when the ring
is drained — so an unbroken run longer than 499 bytes is split across
successive calls. -/
theorem claim_C10_record_cap (ctx : dmlog_ctx) (hm : ctx.magic = DMLOG_MAGIC_NUMBER)
    (hwf : ring_wf ctx.ring) :
    ((dmlog_read_next (some ctx)).1 = true ↔ ringContents ctx.ring ≠ []) ∧
    ((dmlog_read_next (some ctx)).2.getD ctx).read_buffer.length ≤
      DMOD_LOG_MAX_ENTRY_SIZE - 1 ∧
    ((dmlog_read_next (some ctx)).2.getD ctx).read_buffer ++
      ringContents ((dmlog_read_next (some ctx)).2.getD ctx).ring =
      ringContents ctx.ring ∧
    (∀ i, i + 1 < ((dmlog_read_next (some ctx)).2.getD ctx).read_buffer.length →
      ((dmlog_read_next (some ctx)).2.getD ctx).read_buffer.getD i 0 ≠ 10) ∧
    (((dmlog_read_next (some ctx)).2.getD ctx).read_buffer.length =
        DMOD_LOG_MAX_ENTRY_SIZE - 1 ∨
      ((dmlog_read_next (some ctx)).2.getD ctx).read_buffer.getLast? = some 10 ∨
      ringContents ((dmlog_read_next (some ctx)).2.getD ctx).ring = []) := by
  have hw1 : (dmlog_read_next (some ctx)).1 = (dmlog_read_next_body ctx).1 := by
    simp [dmlog_read_next, hm]
  have hw2 : (dmlog_read_next (some ctx)).2.getD ctx = (dmlog_read_next_body ctx).2 := by
    simp [dmlog_read_next, hm]
  obtain ⟨r1, _, _, _, r5, r6, r7, r8, _, _⟩ := dm_read_next_spec ctx hwf
  rw [hw1, hw2]
  exact ⟨r1, r6, r5, r7, r8⟩

theorem claim_C10_witness :
    ((dmlog_read_next (some test_ctx_rec)).1 = true ↔
      ringContents test_ctx_rec.ring ≠ []) ∧
    ((dmlog_read_next (some test_ctx_rec)).2.getD test_ctx_rec).read_buffer.length ≤
      DMOD_LOG_MAX_ENTRY_SIZE - 1 ∧
    ((dmlog_read_next (some test_ctx_rec)).2.getD test_ctx_rec).read_buffer ++
      ringContents ((dmlog_read_next (some test_ctx_rec)).2.getD test_ctx_rec).ring =
      ringContents test_ctx_rec.ring ∧
    (∀ i, i + 1 <
        ((dmlog_read_next (some test_ctx_rec)).2.getD test_ctx_rec).read_buffer.length →
      ((dmlog_read_next (some test_ctx_rec)).2.getD test_ctx_rec).read_buffer.getD i 0 ≠
        10) ∧
    (((dmlog_read_next (some test_ctx_rec)).2.getD test_ctx_rec).read_buffer.length =
        DMOD_LOG_MAX_ENTRY_SIZE - 1 ∨
      ((dmlog_read_next (some test_ctx_rec)).2.getD test_ctx_rec).read_buffer.getLast? =
        some 10 ∨
      ringContents ((dmlog_read_next (some test_ctx_rec)).2.getD test_ctx_rec).ring = []) :=
  claim_C10_record_cap test_ctx_rec rfl (by decide)
